import Mathlib

/-!
Shallow embedding of the Story Lifecycle and Visibility Engine of the
SocialMediaStories repository (src/lambda_function.py, src/app/stories_routes.py,
src/app/highlights_routes.py, src/app/activity_routes.py, src/app/models.py),
together with theorems settling the frozen claims about it.

Modelling conventions:
* user ids are `Int` (integer primary keys in models.py); story, highlight and
  sticker ids are `Nat` (opaque UUID primary keys);
* timestamps are `Int` seconds since an arbitrary epoch for the lifecycle code,
  and `Int` microseconds for the feed-cursor code (where the code subtracts one
  microsecond);
* the object store is represented by an oracle `deleteOk : String → Bool`
  telling whether `delete_object` succeeds on a key (the code catches the
  raised exception when it fails);
* SQLAlchemy sessions are modelled by explicit state passing; an operation
  returns `Except e ok` where the error side carries the database state after
  the implicit rollback performed by closing an uncommitted session.
-/

/-- A row of the `users_` table (models.py, class UserDB), restricted to the
fields the lifecycle engine reads. -/
structure UserRec where
  id : Int
  autoArchiveStories : Bool
  deriving DecidableEq, Repr

/-- A row of the `stories` table (models.py, class Story), restricted to the
fields the engine reads. -/
structure StoryRec where
  id : Nat
  userId : Int
  s3Key : String
  thumbnailKey : String
  viewers : List Int
  privacy : String
  archive : Bool
  highlight : Bool
  deletedAt : Option Int
  createdAt : Int
  expiresAt : Int
  deriving DecidableEq, Repr

/-- A row of the `followers` table (models.py, class Follower). -/
structure FollowerRec where
  followerId : Int
  followingId : Int
  status : String
  blocked : Bool
  deriving DecidableEq, Repr

/-- A row of the `close_friends` table (models.py, class CloseFriend). -/
structure CloseFriendRec where
  userId : Int
  closeFriendId : Int
  deriving DecidableEq, Repr

/-- A row of the `highlights` table (models.py, class Highlight). -/
structure HighlightRec where
  id : Nat
  storyId : Nat
  name : String
  coverImageKey : String
  order : Int
  archive : Bool
  deriving DecidableEq, Repr

/-- The 30-day soft-delete retention window (`timedelta(days=30)`), in seconds. -/
def thirtyDays : Int := 30 * 86400

/-- One day (`timedelta(days=1)` / `timedelta(hours=24)`), in seconds. -/
def oneDay : Int := 86400

/-! ## Lifecycle sweep: `run_cleanup` (lambda_function.py lines 25 to 66) -/

/-- The auto-archive condition `user and user.auto_archive_stories` inside the
sweep loop; the user is fetched with `s.query(UserDB).get(story.user_id)`. -/
def autoArchiveEnabled (users : Int → Option UserRec) (uid : Int) : Bool :=
  match users uid with
  | some u => u.autoArchiveStories
  | none => false

/-- The soft-delete-window condition of the sweep,
`story.deleted_at and (now - story.deleted_at) < timedelta(days=30)`. -/
def inSoftDeleteWindow (now : Int) (st : StoryRec) : Bool :=
  match st.deletedAt with
  | some d => decide (now - d < thirtyDays)
  | none => false

/-- Membership in the `expired_stories` query of `run_cleanup`:
`Story.expires_at <= now, Story.archive == False`, inner-joined with `UserDB`
on `Story.user_id == UserDB.id` (so a story whose owner row is missing is not
selected). -/
def sweepSelected (users : Int → Option UserRec) (now : Int) (st : StoryRec) : Bool :=
  decide (st.expiresAt ≤ now) && !st.archive && (users st.userId).isSome

/-- The body of the `for story in expired_stories` loop of `run_cleanup`:
returns the surviving row (or `none` if the row was purged) together with the
list of object-store keys successfully deleted.  `delete_object` of the
thumbnail is only attempted when the delete of the original succeeded, and any
delete failure abandons the story for this pass (`except Exception: continue`). -/
def cleanupStory (users : Int → Option UserRec) (deleteOk : String → Bool)
    (now : Int) (st : StoryRec) : Option StoryRec × List String :=
  if autoArchiveEnabled users st.userId then (some { st with archive := true }, [])
  else if inSoftDeleteWindow now st then (some st, [])
  else if st.highlight then (some st, [])
  else if deleteOk st.s3Key then
    if deleteOk st.thumbnailKey then (none, [st.s3Key, st.thumbnailKey])
    else (some st, [st.s3Key])
  else (some st, [])

/-- One pass of `run_cleanup` over the stories table: stories selected by the
expiry query are processed by the loop body, all other rows are untouched.
Returns the resulting stories table and the log of deleted object keys. -/
def runCleanup (users : Int → Option UserRec) (deleteOk : String → Bool)
    (now : Int) : List StoryRec → List StoryRec × List String
  | [] => ([], [])
  | st :: rest =>
    let r := runCleanup users deleteOk now rest
    if sweepSelected users now st then
      match cleanupStory users deleteOk now st with
      | (some st2, log) => (st2 :: r.1, log ++ r.2)
      | (none, log) => (r.1, log ++ r.2)
    else (st :: r.1, r.2)

/-! ## Viewer ledger: `list_user_stories` (stories_routes.py lines 459 to 654) -/

/-- The viewer-list append of `list_user_stories` (lines 630 to 635):
`has_seen = viewer_id in (story.viewers or [])`; when not seen,
`story.viewers = (story.viewers or []) + [viewer_id]`. -/
def recordView (viewers : List Int) (viewerId : Int) : List Int :=
  if viewerId ∈ viewers then viewers else viewers ++ [viewerId]

/-- The reported view count of `list_user_stories` (lines 551 to 554):
`len(story.viewers) - 1` when the owner id is in the list, else
`len(story.viewers)`. -/
def viewCountReported (userId : Int) (viewers : List Int) : Nat :=
  if userId ∈ viewers then viewers.length - 1 else viewers.length

/-- The per-story effect of `list_user_stories` on one story record, as seen by
the viewer: the view count is computed (lines 551 to 554) from the viewer list
as read, and afterwards (lines 630 to 635) the viewer id is appended when
absent.  The append is not guarded by any comparison of `viewer_id` with the
story owner `user_id`.  Returns (reported view count, viewer list after). -/
def processStoryView (userId viewerId : Int) (viewers : List Int) : Nat × List Int :=
  (viewCountReported userId viewers, recordView viewers viewerId)

/-! ## Privacy evaluator -/

/-- The privacy filter of the `stories` query in `list_user_stories`
(lines 495 to 510): `or_(user_id == viewer_id, privacy == "public",
(privacy == "private") & is_follower, (privacy == "close friends") &
is_close_friend)`. -/
def viewFilterPasses (userId viewerId : Int) (privacy : String)
    (isFollower isCloseFriend : Bool) : Bool :=
  userId == viewerId || privacy == "public" ||
    (privacy == "private" && isFollower) ||
    (privacy == "close friends" && isCloseFriend)

/-- The privacy checks of `react_to_story` (lines 755 to 772), reached only for
a viewer who is not the owner: a `private` story rejects a non-follower, a
`close friends` story rejects a non-close-friend, and any other privacy value
falls through without a check.  Returns `true` when the request is rejected. -/
def reactTierRejects (privacy : String) (isFollower isCloseFriend : Bool) : Bool :=
  if privacy == "private" then !isFollower
  else if privacy == "close friends" then !isCloseFriend
  else false

/-- Modelled from the spec: the eligibility table of section 4.2 of the
specification, keyed by the three privacy tiers (public always; private iff
accepted non-blocked follower; close friends iff listed close friend).  This
is the specification-side definition against which the code-side predicates
`viewFilterPasses` and `reactTierRejects` are compared. -/
def specTierEligible (privacy : String) (isFollower isCloseFriend : Bool) : Bool :=
  if privacy == "public" then true
  else if privacy == "private" then isFollower
  else isCloseFriend

/-! ## `delete_story` (stories_routes.py lines 657 to 692) -/

/-- The two assignments of `delete_story`:
`story.expires_at = now - timedelta(days=1); story.deleted_at = now`. -/
def softDeleteUpdate (now : Int) (t : StoryRec) : StoryRec :=
  { t with expiresAt := now - oneDay, deletedAt := some now }

/-- The user-triggered delete: after the ownership check the code applies
`softDeleteUpdate` to the story and commits; there is no branch testing
whether the story is already expired. -/
def deleteStory (now userId : Int) (sid : Nat) (stories : List StoryRec) :
    Except String (List StoryRec) :=
  match stories.find? (fun st => st.id == sid) with
  | none => .error "story not found"
  | some st =>
    if st.userId != userId then .error "you are not the owner of this story"
    else .ok (stories.map (fun t => if t.id == sid then softDeleteUpdate now t else t))

/-! ## `delete_story_from_recently_deleted` (activity_routes.py lines 525 to 555) -/

/-- Despite its name, the operation only finds the story with
`Story.deleted_at != None`, checks ownership, and sets `story.deleted_at = None`;
no other column is assigned, the row is not deleted, and no `delete_object`
call is issued.  The second component of the result is the list of object-store
keys deleted (always empty, mirroring the absence of storage calls). -/
def deleteStoryFromRecentlyDeleted (userId : Int) (sid : Nat)
    (stories : List StoryRec) : Except String (List StoryRec × List String) :=
  match stories.find? (fun st => st.id == sid && st.deletedAt != none) with
  | none => .error "story not found"
  | some st =>
    if st.userId != userId then .error "user does not have access to the story"
    else .ok (stories.map (fun t =>
      if t.id == sid then { t with deletedAt := none } else t), [])

/-! ## Poll votes and quiz answers (stories_routes.py lines 1004 to 1169) -/

/-- A row of the `stickers` table (models.py, class Sticker); `options` stores
the JSON-decoded option list, `none` standing for a body that
`json.loads` rejects. -/
structure StickerRec where
  id : Nat
  storyId : Nat
  type : String
  options : Option (List String)
  deriving DecidableEq, Repr

/-- A row of the `sticker_responses` table (models.py, class StickerResponse). -/
structure StickerResponseRec where
  stickerId : Nat
  userId : Int
  selectedOption : Option Int
  sliderValue : Option Int
  deriving DecidableEq, Repr

/-- Database state consulted by `vote_poll` and `record_answer_for_quiz`. -/
structure PollDB where
  stories : List StoryRec
  stickers : List StickerRec
  responses : List StickerResponseRec
  deriving Repr

/-- The outcomes of `vote_poll` / `record_answer_for_quiz`; every `bad` variant
is a 400 response, and `created` is the 201 path that stores a new
`StickerResponse` row.  `badMissingField` is the 400 response with message
Missing option or user_id field. -/
inductive PollOutcome where
  | badMissingField
  | badStoryNotFound
  | badOwnStory
  | badStickerNotFound
  | badInvalidOptionsJson
  | badInvalidOptionIndex
  | badAlreadyResponded
  | created (resp : StickerResponseRec) (optionText : String)
  deriving DecidableEq, Repr

/-- The bounds check shared by `vote_poll` and `record_answer_for_quiz`:
`vote_for < 0 or vote_for >= len(sticker_options)`. -/
def optionIndexInvalid (i : Int) (opts : List String) : Bool :=
  i < 0 || i ≥ (opts.length : Int)

/-- The body of `vote_poll` (lines 1004 to 1085).  The first test in the
function body is the Python truthiness check `if not vote_for or not user_id`,
which fires exactly when either integer is 0, before the story or the sticker
is queried. -/
def votePoll (db : PollDB) (sid : Nat) (userId voteFor : Int) : PollOutcome :=
  if voteFor == 0 || userId == 0 then .badMissingField
  else
    match db.stories.find? (fun st => st.id == sid) with
    | none => .badStoryNotFound
    | some story =>
      if story.userId == userId then .badOwnStory
      else
        match db.stickers.find? (fun t => t.storyId == sid && t.type == "poll") with
        | none => .badStickerNotFound
        | some sticker =>
          match sticker.options with
          | none => .badInvalidOptionsJson
          | some opts =>
            if optionIndexInvalid voteFor opts then .badInvalidOptionIndex
            else if db.responses.any (fun r =>
                r.stickerId == sticker.id && r.userId == userId) then .badAlreadyResponded
            else .created
              { stickerId := sticker.id, userId := userId,
                selectedOption := some voteFor, sliderValue := none }
              (opts.getD voteFor.toNat "")

/-- The body of `record_answer_for_quiz` (lines 1088 to 1169), identical in
structure to `vote_poll` but looking up the sticker with `type == "quiz"`. -/
def recordAnswerForQuiz (db : PollDB) (sid : Nat) (userId option : Int) : PollOutcome :=
  if option == 0 || userId == 0 then .badMissingField
  else
    match db.stories.find? (fun st => st.id == sid) with
    | none => .badStoryNotFound
    | some story =>
      if story.userId == userId then .badOwnStory
      else
        match db.stickers.find? (fun t => t.storyId == sid && t.type == "quiz") with
        | none => .badStickerNotFound
        | some sticker =>
          match sticker.options with
          | none => .badInvalidOptionsJson
          | some opts =>
            if optionIndexInvalid option opts then .badInvalidOptionIndex
            else if db.responses.any (fun r =>
                r.stickerId == sticker.id && r.userId == userId) then .badAlreadyResponded
            else .created
              { stickerId := sticker.id, userId := userId,
                selectedOption := some option, sliderValue := none }
              (opts.getD option.toNat "")

/-! ## Feed composer: `get_feed` (stories_routes.py lines 274 to 401) -/

/-- Relationship tables consulted by the feed and privacy code. -/
structure RelDB where
  stories : List StoryRec
  followers : List FollowerRec
  closeFriends : List CloseFriendRec
  deriving DecidableEq, Repr

/-- The accepted, non-blocked follower lookup used throughout the code
(`Follower.follower_id == viewer, Follower.following_id == owner,
status == "accepted", blocked == False`). -/
def isAcceptedFollower (db : RelDB) (viewerId ownerId : Int) : Bool :=
  db.followers.any (fun f =>
    f.followerId == viewerId && f.followingId == ownerId &&
      f.status == "accepted" && !f.blocked)

/-- The close-friend lookup (`CloseFriend.user_id == owner,
CloseFriend.close_friend_id == viewer`). -/
def isCloseFriendOf (db : RelDB) (ownerId viewerId : Int) : Bool :=
  db.closeFriends.any (fun c => c.userId == ownerId && c.closeFriendId == viewerId)

/-- All stories of one author, in table order. -/
def storiesOf (db : RelDB) (uid : Int) : List StoryRec :=
  db.stories.filter (fun st => st.userId == uid)

/-- The story filter of the feed base query (lines 299 to 302):
`archive == False, expires_at > now, deleted_at == None`. -/
def feedActiveFilter (now : Int) (st : StoryRec) : Bool :=
  !st.archive && decide (st.expiresAt > now) && st.deletedAt == none

/-- Membership of an author in the feed base query (lines 289 to 312): at
least one story passing `feedActiveFilter`, and either an accepted non-blocked
follow edge from the viewer or a close-friend edge towards the viewer. -/
def authorInFeedCandidates (now : Int) (db : RelDB) (viewerId uid : Int) : Bool :=
  !((storiesOf db uid).filter (feedActiveFilter now)).isEmpty &&
    (isAcceptedFollower db viewerId uid || isCloseFriendOf db uid viewerId)

/-- The `func.max(Story.created_at)` aggregate of the base query, over the
stories passing `feedActiveFilter`. -/
def latestActiveStoryTime (now : Int) (db : RelDB) (uid : Int) : Option Int :=
  (((storiesOf db uid).filter (feedActiveFilter now)).map (fun st => st.createdAt)).max?

/-- The `latest_story` lookup inside the author loop (lines 348 to 353):
`s.query(Story).filter(Story.user_id == r.id).order_by(created_at.desc()).first()`
with no archive, expiry, deletion or privacy filter.  Ties on `created_at`
(unspecified by SQL) are resolved towards the earlier row. -/
def latestStoryOverall (db : RelDB) (uid : Int) : Option StoryRec :=
  (storiesOf db uid).foldl
    (fun acc st =>
      match acc with
      | none => some st
      | some b => if st.createdAt > b.createdAt then some st else some b)
    none

/-- The `has_new_stories` subquery of the author loop (lines 370 to 379):
a story of the author with `archive == False`, `expires_at > now`, whose
viewers list does not contain the requesting user. -/
def hasNewStoriesFor (now : Int) (db : RelDB) (viewerId uid : Int) : Bool :=
  (storiesOf db uid).any (fun st =>
    !st.archive && decide (st.expiresAt > now) && !(st.viewers.contains viewerId))

/-- One entry of the feed response (lines 381 to 389). -/
structure FeedEntry where
  userId : Int
  lastStoryTime : Option Int
  hasNewStories : Bool
  privacy : String
  deriving DecidableEq, Repr

/-- The body of the `for r in base_q` loop of `get_feed` for one candidate
author (lines 343 to 389): the most recent story overall determines the
`privacy` field and the skip decision (`if privacy == "close friends": if not
is_close_friend: continue`); the entry time is the base-query aggregate.
Returns `none` when the author is skipped. -/
def feedAuthorEntry (now : Int) (db : RelDB) (viewerId uid : Int) : Option FeedEntry :=
  if authorInFeedCandidates now db viewerId uid then
    match latestStoryOverall db uid with
    | none => none
    | some latest =>
      if latest.privacy == "close friends" && !isCloseFriendOf db uid viewerId then none
      else some
        { userId := uid
          lastStoryTime := latestActiveStoryTime now db uid
          hasNewStories := hasNewStoriesFor now db viewerId uid
          privacy := latest.privacy }
  else none

/-- Modelled from the spec: a story is eligible (claim C5: Active, non-purged,
privacy-passing for the viewer) when it passes the active filter and the
privacy table of section 4.2. -/
def specEligibleStory (now : Int) (db : RelDB) (viewerId : Int) (st : StoryRec) : Bool :=
  feedActiveFilter now st &&
    (st.userId == viewerId || st.privacy == "public" ||
      (st.privacy == "private" && isAcceptedFollower db viewerId st.userId) ||
      (st.privacy == "close friends" && isCloseFriendOf db st.userId viewerId))

/-- Modelled from the spec: the most recent eligible story of an author for a
viewer, which per claim C5 should determine the author's feed entry. -/
def specMostRecentEligible (now : Int) (db : RelDB) (viewerId uid : Int) :
    Option StoryRec :=
  ((storiesOf db uid).filter (specEligibleStory now db viewerId)).foldl
    (fun acc st =>
      match acc with
      | none => some st
      | some b => if st.createdAt > b.createdAt then some st else some b)
    none

/-! ## Feed cursor pagination (stories_routes.py lines 314 to 320 and 343 to 398)

The base query rows are (author, latest-story-time) aggregates ordered by
descending time; times are in microseconds, matching the
`timedelta(microseconds=1)` epsilon. -/

/-- One row of the feed base query. -/
structure FeedRow where
  userId : Int
  time : Int
  deriving DecidableEq, Repr

/-- The cursor clause (lines 315 to 317): with a cursor `c` the query keeps
rows with `max(created_at) < parse_cursor(c) - timedelta(microseconds=1)`. -/
def applyCursor (rows : List FeedRow) (cursor : Option Int) : List FeedRow :=
  match cursor with
  | none => rows
  | some c => rows.filter (fun r => decide (r.time < c - 1))

/-- The author loop as a page selector: rows are consumed in query order, a
row may be skipped (`continue`, modelled by the predicate `skip`), and the
loop breaks once `limit` entries have been collected.  On a cursor request the
accumulator starts empty (the self entry is only prepended when no cursor is
given). -/
def feedPage (rows : List FeedRow) (skip : FeedRow → Bool) (cursor : Option Int)
    (limit : Nat) : List FeedRow :=
  ((applyCursor rows cursor).filter (fun r => !skip r)).take limit

/-- The `has_more` flag (line 397): `len(feed_data) == limit`. -/
def hasMore (page : List FeedRow) (limit : Nat) : Bool :=
  page.length == limit

/-! ## Highlight ordering (highlights_routes.py) -/

/-- Database state touched by the highlight-ordering routes, together with a
supply of fresh primary keys for newly inserted highlight rows (modelling
`uuid4` freshness). -/
structure HLDB where
  stories : List StoryRec
  highlights : List HighlightRec
  nextId : Nat
  deriving DecidableEq, Repr

/-- Story lookup by primary key (`s.query(Story).get(sid)`). -/
def findStory (db : HLDB) (sid : Nat) : Option StoryRec :=
  db.stories.find? (fun st => st.id == sid)

/-- In-place mutation of the story row with the given id. -/
def updateStory (db : HLDB) (sid : Nat) (f : StoryRec → StoryRec) : HLDB :=
  { db with stories := db.stories.map (fun st => if st.id == sid then f st else st) }

/-- Deletion of a story row; the `cascade="all, delete-orphan"` relationship of
models.py also removes the highlight rows referencing it. -/
def deleteStoryCascade (db : HLDB) (sid : Nat) : HLDB :=
  { db with
    stories := db.stories.filter (fun st => !(st.id == sid)),
    highlights := db.highlights.filter (fun h => !(h.storyId == sid)) }

/-- In-place mutation of the first highlight row with the given story id
(`s.query(Highlight).filter_by(story_id=...).first()` followed by attribute
assignment). -/
def updateFirstByStoryId (hs : List HighlightRec) (sid : Nat)
    (f : HighlightRec → HighlightRec) : List HighlightRec :=
  match hs with
  | [] => []
  | h :: rest =>
    if h.storyId == sid then f h :: rest
    else h :: updateFirstByStoryId rest sid f

/-- Deletion of the highlight row with the given primary key (`s.delete(h)`). -/
def eraseFirstById (hs : List HighlightRec) (hid : Nat) : List HighlightRec :=
  match hs with
  | [] => []
  | h :: rest => if h.id == hid then rest else h :: eraseFirstById rest hid

/-- The kept-story disposition shared by the removal routes: a story that is
still active or archived, or soft-deleted within the 30-day window, only has
its `highlight` flag cleared rather than being purged. -/
def storyStillKept (now : Int) (st : StoryRec) : Bool :=
  decide (st.expiresAt > now) || st.archive ||
    (match st.deletedAt with
     | some d => decide (now - d < thirtyDays)
     | none => false)

/-- The body of `remove_highlight_from_highlights` (highlights_routes.py lines
609 to 707) from the lookup onwards: find the highlight joined with its owned
story; decrement `order` on every row of the same (name, cover_image_key)
group with a greater order; then dispose of the story (clear the flag, or
delete both media objects and purge, a storage failure rolling the whole
transaction back); finally delete the highlight row and commit.  The error
side carries the state visible after the implicit rollback. -/
def removeHighlightFromHighlights (now : Int) (deleteOk : String → Bool)
    (userId : Int) (hid : Nat) (db0 : HLDB) : Except HLDB HLDB :=
  match db0.highlights.find? (fun h =>
      h.id == hid &&
        ((findStory db0 h.storyId).map (fun st => st.userId == userId)).getD false) with
  | none => .error db0
  | some highlight =>
    let db1 : HLDB := { db0 with
      highlights := db0.highlights.map (fun h =>
        if h.name == highlight.name && h.coverImageKey == highlight.coverImageKey &&
            decide (highlight.order < h.order)
        then { h with order := h.order - 1 } else h) }
    match findStory db1 highlight.storyId with
    | none => .error db0
    | some story =>
      if storyStillKept now story then
        let db2 := updateStory db1 story.id (fun st => { st with highlight := false })
        .ok { db2 with highlights := eraseFirstById db2.highlights hid }
      else if deleteOk story.s3Key && deleteOk story.thumbnailKey then
        let db2 := deleteStoryCascade db1 story.id
        .ok { db2 with highlights := eraseFirstById db2.highlights hid }
      else .error db0

/-- The failure modes of `edit_highlight_folder`: most error returns leave the
session uncommitted (so the transaction rolls back to the caller-visible
state), but the missing-highlight branch of the selected loop commits the
accumulated changes before returning its error. -/
inductive EditFail where
  | rollback
  | committedMid (db : HLDB)

/-- The rename step of `edit_highlight_folder` (lines 906 to 910): every row
whose (name, cover_image_key) equals (old_name, old_cover_image_key) is
rewritten to the new pair. -/
def renameGroup (oldName oldCover name cover : String)
    (hs : List HighlightRec) : List HighlightRec :=
  hs.map (fun h =>
    if h.name == oldName && h.coverImageKey == oldCover
    then { h with name := name, coverImageKey := cover } else h)

/-- The selected loop of `edit_highlight_folder` (lines 913 to 954), with the
running counter `i` that numbers the selected stories: an already-highlighted
story has its first highlight row renumbered to `i`; an unhighlighted story
gets its flag set and a fresh highlight row at order `i`.  A missing story or
an ownership mismatch aborts with a rollback; a highlighted story without a
highlight row commits the accumulated state and aborts. -/
def selectLoop (userId : Int) (name cover : String) :
    List Nat → Int → HLDB → Except EditFail (Int × HLDB)
  | [], i, db => .ok (i, db)
  | sid :: rest, i, db =>
    match findStory db sid with
    | none => .error .rollback
    | some story =>
      if story.userId != userId then .error .rollback
      else if story.highlight then
        match db.highlights.find? (fun h => h.storyId == sid) with
        | none =>
          .error (.committedMid (updateStory db sid (fun st => { st with highlight := false })))
        | some _ =>
          selectLoop userId name cover rest (i + 1)
            { db with highlights :=
                updateFirstByStoryId db.highlights sid (fun h => { h with order := i }) }
      else
        selectLoop userId name cover rest (i + 1)
          { stories := db.stories.map (fun st =>
              if st.id == sid then { st with highlight := true } else st),
            highlights := db.highlights ++
              [{ id := db.nextId, storyId := sid, name := name,
                 coverImageKey := cover, order := i, archive := false }],
            nextId := db.nextId + 1 }

/-- The deselected loop of `edit_highlight_folder` (lines 957 to 988): the
source guard `if sid in selected_ids` compares a UUID value against a list of
strings and never fires, so the body always runs.  The first highlight row
with the story id (joined with its story) is deleted, with no renumbering of
the remaining rows, and the story is disposed of as in the removal route; any
failure rolls the transaction back. -/
def deselectLoop (now : Int) (deleteOk : String → Bool) (userId : Int) :
    List Nat → HLDB → Except EditFail HLDB
  | [], db => .ok db
  | sid :: rest, db =>
    match db.highlights.find? (fun h =>
        h.storyId == sid && (findStory db h.storyId).isSome) with
    | none => .error .rollback
    | some h =>
      match findStory db h.storyId with
      | none => .error .rollback
      | some story =>
        if story.userId != userId then .error .rollback
        else
          let db1 : HLDB := { db with highlights := eraseFirstById db.highlights h.id }
          if storyStillKept now story then
            deselectLoop now deleteOk userId rest
              (updateStory db1 story.id (fun st => { st with highlight := false }))
          else if deleteOk story.s3Key && deleteOk story.thumbnailKey then
            deselectLoop now deleteOk userId rest (deleteStoryCascade db1 story.id)
          else .error .rollback

/-- The body of `edit_highlight_folder` (highlights_routes.py lines 892 to
997): validate the new name and cover, rename the old group, renumber or
insert the selected stories with orders starting at 1, then delete the
deselected rows.  The error side carries the state the caller observes after
the failure (the untouched original, except for the mid-commit branch of the
selected loop). -/
def editHighlightFolder (now : Int) (deleteOk : String → Bool) (userId : Int)
    (name cover oldName oldCover : String)
    (selectedIds deselectedIds : List Nat) (db0 : HLDB) : Except HLDB HLDB :=
  if name == "" || cover == "" then .error db0
  else
    let db1 : HLDB :=
      { db0 with highlights := renameGroup oldName oldCover name cover db0.highlights }
    match selectLoop userId name cover selectedIds 1 db1 with
    | .error .rollback => .error db0
    | .error (.committedMid d) => .error d
    | .ok (_, db2) =>
      match deselectLoop now deleteOk userId deselectedIds db2 with
      | .error _ => .error db0
      | .ok db3 => .ok db3

/-- The multiset of `order` values of a (name, cover_image_key) highlight
group. -/
def groupOrders (hs : List HighlightRec) (name cover : String) : Multiset Int :=
  ((hs.filter (fun h => h.name == name && h.coverImageKey == cover)).map
    (fun h => h.order) : List Int)

/-- The density invariant of section 4.4 of the specification: the orders of a
group of size `n` are exactly 1 to `n`. -/
def denseOrders (m : Multiset Int) (n : Nat) : Prop :=
  m = (Multiset.range n).map (fun i : Nat => (i : Int) + 1)

instance (m : Multiset Int) (n : Nat) : Decidable (denseOrders m n) := by
  unfold denseOrders; infer_instance

/-- The multiset of (story id, order) pairs of a (name, cover_image_key)
highlight group; the order values are its image under the second projection. -/
def groupKey (hs : List HighlightRec) (name cover : String) :
    Multiset (Nat × Int) :=
  ((hs.filter (fun h => h.name == name && h.coverImageKey == cover)).map
    (fun h => (h.storyId, h.order)) : List (Nat × Int))

/-- Successive numbering of a list of story ids starting at `i`, matching the
running counter of the selected loop of `edit_highlight_folder`. -/
def enumFrom (i : Int) : List Nat → List (Nat × Int)
  | [] => []
  | s :: r => (s, i) :: enumFrom (i + 1) r

/-! ## Concrete instances used by witnesses and counterexamples -/

/-- Users table for the sweep scenario: user 7 has auto-archive disabled,
user 8 has it enabled. -/
def exUsers : Int → Option UserRec := fun uid =>
  if uid = 7 then some { id := 7, autoArchiveStories := false }
  else if uid = 8 then some { id := 8, autoArchiveStories := true }
  else none

/-- Storage oracle for the sweep scenario: every delete succeeds except on the
key named bad. -/
def exDeleteOk : String → Bool := fun k => !(k == "bad")

/-- Storage oracle on which every delete succeeds. -/
def allDeletesOk : String → Bool := fun _ => true

/-- An expired, unarchived, unhighlighted story of user 7. -/
def exStorySweep : StoryRec :=
  { id := 1, userId := 7, s3Key := "orig1", thumbnailKey := "thumb1", viewers := [],
    privacy := "public", archive := false, highlight := false, deletedAt := none,
    createdAt := 100, expiresAt := 200 }

/-- A stories table exercising the sweep branches: story 1 is purged, story 2
is auto-archived, story 3 hits a storage failure, story 4 is protected by its
highlight flag. -/
def exStoriesSweep : List StoryRec :=
  [exStorySweep,
   { id := 2, userId := 8, s3Key := "orig2", thumbnailKey := "thumb2", viewers := [],
     privacy := "public", archive := false, highlight := false, deletedAt := none,
     createdAt := 100, expiresAt := 150 },
   { id := 3, userId := 7, s3Key := "bad", thumbnailKey := "thumb3", viewers := [],
     privacy := "public", archive := false, highlight := false, deletedAt := none,
     createdAt := 100, expiresAt := 150 },
   { id := 4, userId := 7, s3Key := "orig4", thumbnailKey := "thumb4", viewers := [],
     privacy := "public", archive := false, highlight := true, deletedAt := none,
     createdAt := 100, expiresAt := 150 }]

/-- Author 2 has an older public active story (the most recent eligible story
for a follower who is not a close friend). -/
def exS1 : StoryRec :=
  { id := 1, userId := 2, s3Key := "k1", thumbnailKey := "t1", viewers := [],
    privacy := "public", archive := false, highlight := false, deletedAt := none,
    createdAt := 100, expiresAt := 1000 }

/-- Author 2 has a newer close-friends active story. -/
def exS2 : StoryRec :=
  { id := 2, userId := 2, s3Key := "k2", thumbnailKey := "t2", viewers := [],
    privacy := "close friends", archive := false, highlight := false, deletedAt := none,
    createdAt := 200, expiresAt := 1000 }

/-- Author 3 has a public active story. -/
def exS3 : StoryRec :=
  { id := 3, userId := 3, s3Key := "k3", thumbnailKey := "t3", viewers := [],
    privacy := "public", archive := false, highlight := false, deletedAt := none,
    createdAt := 300, expiresAt := 1000 }

/-- Feed scenario: viewer 1 has accepted, unblocked follow edges to authors 2
and 3, and is a close friend of neither. -/
def exFeedDB : RelDB :=
  { stories := [exS1, exS2, exS3],
    followers := [{ followerId := 1, followingId := 2, status := "accepted", blocked := false },
                  { followerId := 1, followingId := 3, status := "accepted", blocked := false }],
    closeFriends := [] }

/-- Feed rows for the pagination scenario, ordered by descending time. -/
def exRows : List FeedRow :=
  [{ userId := 1, time := 1000 }, { userId := 2, time := 900 },
   { userId := 3, time := 800 }, { userId := 4, time := 700 }]

/-- Skip predicate for the pagination scenario: author 2 is skipped. -/
def exSkip : FeedRow → Bool := fun r => r.userId == 2

/-- An already-expired story of user 7 with no soft-delete marker. -/
def exStoryExpired : StoryRec :=
  { id := 1, userId := 7, s3Key := "k", thumbnailKey := "t", viewers := [],
    privacy := "public", archive := false, highlight := false, deletedAt := none,
    createdAt := 100, expiresAt := 300 }

/-- A soft-deleted archived story of user 7 used for the recently-deleted
scenario. -/
def exStorySoftDeleted : StoryRec :=
  { id := 1, userId := 7, s3Key := "k", thumbnailKey := "t", viewers := [3],
    privacy := "public", archive := true, highlight := false, deletedAt := some 100,
    createdAt := 50, expiresAt := 80 }

/-- Poll scenario: story 1 of user 7 carries a poll sticker (id 5) with two
options and a quiz sticker (id 6) with two options; no responses yet. -/
def exPollDB : PollDB :=
  { stories := [{ id := 1, userId := 7, s3Key := "k", thumbnailKey := "t", viewers := [],
                  privacy := "public", archive := false, highlight := false,
                  deletedAt := none, createdAt := 100, expiresAt := 1000 }],
    stickers := [{ id := 5, storyId := 1, type := "poll", options := some ["Yes", "No"] },
                 { id := 6, storyId := 1, type := "quiz", options := some ["A", "B"] }],
    responses := [] }

/-- The response row created by the poll-vote witness. -/
def exPollResp : StickerResponseRec :=
  { stickerId := 5, userId := 3, selectedOption := some 1, sliderValue := none }

/-- Two archived highlighted stories of user 7. -/
def exHLStoryA : StoryRec :=
  { id := 1, userId := 7, s3Key := "a", thumbnailKey := "ta", viewers := [],
    privacy := "public", archive := true, highlight := true, deletedAt := none,
    createdAt := 100, expiresAt := 200 }

/-- Second archived highlighted story of user 7. -/
def exHLStoryB : StoryRec :=
  { id := 2, userId := 7, s3Key := "b", thumbnailKey := "tb", viewers := [],
    privacy := "public", archive := true, highlight := true, deletedAt := none,
    createdAt := 100, expiresAt := 200 }

/-- A highlight group named trip with cover cov holding stories 1 and 2 at
orders 1 and 2. -/
def exHLDB : HLDB :=
  { stories := [exHLStoryA, exHLStoryB],
    highlights := [{ id := 10, storyId := 1, name := "trip", coverImageKey := "cov",
                     order := 1, archive := false },
                   { id := 11, storyId := 2, name := "trip", coverImageKey := "cov",
                     order := 2, archive := false }],
    nextId := 100 }

/-- The group orders of the database reached by an edit, `none` when the edit
failed. -/
def editResultOrders (r : Except HLDB HLDB) (name cover : String) :
    Option (Multiset Int) :=
  match r with
  | .ok d => some (groupOrders d.highlights name cover)
  | .error _ => none

/-! ## Helper lemmas -/

/-- Updating stories through an id-preserving rewrite commutes with the
id-keyed lookup. -/
theorem find?_map_upd (stories : List StoryRec) (sid : Nat)
    (g : StoryRec → StoryRec) (hg : ∀ t, (g t).id = t.id) :
    (stories.map (fun t => if t.id == sid then g t else t)).find?
        (fun t => t.id == sid) =
      (stories.find? (fun t => t.id == sid)).map
        (fun t => if t.id == sid then g t else t) := by
  have hpf : ((fun t => t.id == sid) ∘ fun t => if t.id == sid then g t else t)
      = (fun t : StoryRec => t.id == sid) := by
    funext x
    by_cases hx : x.id = sid
    · simp [hx, hg]
    · simp [hx]
  rw [List.find?_map, hpf]

/-- In a list sorted by non-increasing time, every element is at least the
last element. -/
theorem time_ge_getLast (l : List FeedRow) (last : FeedRow)
    (hs : l.Pairwise (fun a b => b.time ≤ a.time))
    (hl : l.getLast? = some last) : ∀ x ∈ l, last.time ≤ x.time := by
  induction l with
  | nil => simp at hl
  | cons a t ih =>
    intro x hx
    rcases List.mem_cons.mp hx with rfl | hxt
    · cases t with
      | nil =>
        have hax : x = last := by simpa using hl
        simp [hax]
      | cons b t2 =>
        have hl2 : (b :: t2).getLast? = some last := by
          simpa [List.getLast?_cons_cons] using hl
        have hmem : last ∈ b :: t2 :=
          List.mem_of_mem_getLast? (Option.mem_def.mpr hl2)
        exact (List.pairwise_cons.mp hs).1 last hmem
    · cases t with
      | nil => simp at hxt
      | cons b t2 =>
        have hl2 : (b :: t2).getLast? = some last := by
          simpa [List.getLast?_cons_cons] using hl
        exact ih (List.pairwise_cons.mp hs).2 hl2 x hxt

/-- Two members of a list whose image under `f` has no duplicates are equal
whenever their images agree. -/
theorem map_nodup_inj {α β : Type} (l : List α) (f : α → β)
    (hnd : (l.map f).Nodup) :
    ∀ a ∈ l, ∀ b ∈ l, f a = f b → a = b := by
  induction l with
  | nil => simp
  | cons x t ih =>
    simp only [List.map_cons, List.nodup_cons] at hnd
    intro a ha b hb hfab
    rcases List.mem_cons.mp ha with rfl | hat <;>
      rcases List.mem_cons.mp hb with rfl | hbt
    · rfl
    · exact absurd (hfab ▸ List.mem_map_of_mem f hbt) hnd.1
    · exact absurd (hfab ▸ List.mem_map_of_mem f hat) hnd.1
    · exact ih hnd.2 a hat b hbt hfab

/-- Every element of a feed page is a row of the base query. -/
theorem feedPage_subset (rows : List FeedRow) (skip : FeedRow → Bool)
    (cursor : Option Int) (limit : Nat) :
    ∀ r ∈ feedPage rows skip cursor limit, r ∈ rows := by
  intro r hr
  have h1 := List.mem_of_mem_take hr
  have h2 := List.mem_of_mem_filter h1
  cases cursor with
  | none => exact h2
  | some c => exact List.mem_of_mem_filter h2

/-- A feed page is a sublist of the base query rows. -/
theorem feedPage_sublist (rows : List FeedRow) (skip : FeedRow → Bool)
    (cursor : Option Int) (limit : Nat) :
    (feedPage rows skip cursor limit).Sublist rows := by
  refine ((List.take_sublist _ _).trans (List.filter_sublist _)).trans ?_
  cases cursor with
  | none => exact List.Sublist.refl rows
  | some c => exact List.filter_sublist rows

/-! ## Claim C3 -/

/-- Claim C3, counterexample: when owner 7 views their own story whose viewer
list is empty, `list_user_stories` appends the owner id to the viewer list
(the append at lines 630 to 635 is not guarded by an ownership test), so the
claim that the owner id is never appended on a self-view is false. -/
theorem C3_counterexample :
    (7 : Int) ∉ ([] : List Int) ∧ (7 : Int) ∈ (processStoryView 7 7 []).2 := by
  decide

/-- Claim C3 as amended: when the owner views their own stories the owner id
is appended to the viewer list exactly like any other viewer (idempotently),
rather than being excluded; the reported view count, computed from the viewer
list as read before the append, equals its length minus one when the owner id
is already in the list and its length otherwise. -/
theorem C3_amended (uid : Int) (viewers : List Int) :
    (uid ∉ viewers →
        processStoryView uid uid viewers = (viewers.length, viewers ++ [uid])) ∧
    (uid ∈ viewers →
        processStoryView uid uid viewers = (viewers.length - 1, viewers)) := by
  constructor <;> intro h <;>
    simp [processStoryView, viewCountReported, recordView, h]

/-- Witness for the amended claim C3 at owner id 7 and an empty viewer list. -/
theorem C3_amended_witness :
    ((7 : Int) ∉ ([] : List Int) ∧ processStoryView 7 7 [] = (0, [7])) ∧
    ((7 : Int) ∈ [7, 3] ∧ processStoryView 7 7 [7, 3] = (1, [7, 3])) :=
  ⟨⟨by decide, (C3_amended 7 []).1 (by decide)⟩,
   ⟨by decide, (C3_amended 7 [7, 3]).2 (by decide)⟩⟩

/-! ## Claim C7 -/

/-- Claim C7, counterexample: user 7 deletes story 1 which is already past
expiry (`expires_at = 300 <= now = 500`) and has no soft-delete marker; the
operation is not a no-op, since it rewrites both `deleted_at` and
`expires_at`. -/
theorem C7_counterexample :
    exStoryExpired.expiresAt ≤ 500 ∧ exStoryExpired.deletedAt = none ∧
    deleteStory 500 7 1 [exStoryExpired] =
      .ok [softDeleteUpdate 500 exStoryExpired] ∧
    softDeleteUpdate 500 exStoryExpired ≠ exStoryExpired :=
  ⟨by decide, by decide, by rfl, by decide⟩

/-- Claim C7 as amended: the owner-triggered delete unconditionally rewrites
the story row with `expires_at = now - 1 day` (a stored time strictly before
`now`) and `deleted_at = now`; it has no special branch for a story already
past expiry, so whenever the stored `deleted_at` is not already `now` the
stored row changes.  It is idempotent only in the sense that re-running the
delete at the same `now` leaves the table unchanged. -/
theorem C7_amended (now uid : Int) (sid : Nat) (stories : List StoryRec)
    (st : StoryRec)
    (hfind : stories.find? (fun t => t.id == sid) = some st)
    (hown : st.userId = uid) :
    deleteStory now uid sid stories =
      .ok (stories.map (fun t => if t.id == sid then softDeleteUpdate now t else t)) ∧
    ((softDeleteUpdate now st).expiresAt < now ∧
      (softDeleteUpdate now st).deletedAt = some now) ∧
    (st.deletedAt ≠ some now → softDeleteUpdate now st ≠ st) ∧
    (∀ l2, deleteStory now uid sid stories = .ok l2 →
        deleteStory now uid sid l2 = .ok l2) := by
  have hres : deleteStory now uid sid stories =
      .ok (stories.map (fun t => if t.id == sid then softDeleteUpdate now t else t)) := by
    simp [deleteStory, hfind, hown]
  refine ⟨hres, ⟨by simp [softDeleteUpdate, oneDay], rfl⟩, ?_, ?_⟩
  · intro hne heq
    exact hne (congrArg StoryRec.deletedAt heq.symm)
  intro l2 h2
  rw [hres] at h2
  cases h2
  have hfind2 := find?_map_upd stories sid (softDeleteUpdate now) (fun t => rfl)
  simp only [hfind] at hfind2
  have hsid : (st.id == sid) = true := by
    simpa using List.find?_some hfind
  have hmap : Option.map (fun t => if t.id == sid then softDeleteUpdate now t else t)
      (some st) = some (softDeleteUpdate now st) := by
    have h1 : Option.map (fun t => if t.id == sid then softDeleteUpdate now t else t)
        (some st) = some (if st.id == sid then softDeleteUpdate now st else st) := rfl
    rw [h1, if_pos hsid]
  rw [hmap] at hfind2
  have hgown : (softDeleteUpdate now st).userId = uid := hown
  simp only [deleteStory, hfind2, hgown, bne_self_eq_false, Bool.false_eq_true,
    if_false]
  congr 1
  rw [List.map_map]
  apply List.map_congr_left
  intro t _
  by_cases htid : t.id = sid
  · simp [htid, softDeleteUpdate]
  · simp [htid]

/-- Witness for the amended claim C7: user 7 deletes the already-expired story
1 at time 500. -/
theorem C7_amended_witness :
    ([exStoryExpired].find? (fun t => t.id == 1) = some exStoryExpired ∧
      exStoryExpired.userId = 7) ∧
    (deleteStory 500 7 1 [exStoryExpired] =
        .ok ([exStoryExpired].map (fun t =>
          if t.id == 1 then softDeleteUpdate 500 t else t)) ∧
      ((softDeleteUpdate 500 exStoryExpired).expiresAt < 500 ∧
        (softDeleteUpdate 500 exStoryExpired).deletedAt = some 500) ∧
      (exStoryExpired.deletedAt ≠ some 500 →
        softDeleteUpdate 500 exStoryExpired ≠ exStoryExpired) ∧
      (∀ l2, deleteStory 500 7 1 [exStoryExpired] = .ok l2 →
          deleteStory 500 7 1 l2 = .ok l2)) :=
  ⟨⟨by decide, by decide⟩, C7_amended 500 7 1 [exStoryExpired] exStoryExpired
    (by decide) (by decide)⟩

/-! ## Claim C8 -/

/-- Claim C8: the viewer-list append of `list_user_stories` is idempotent: a
viewer already present leaves the list unchanged, an absent viewer is appended
exactly once at the end, recording twice equals recording once, and the
operation preserves freedom from duplicates. -/
theorem C8_recordView_idempotent :
    (∀ (v : List Int) (x : Int), x ∈ v → recordView v x = v) ∧
    (∀ (v : List Int) (x : Int), x ∉ v → recordView v x = v ++ [x]) ∧
    (∀ (v : List Int) (x : Int), recordView (recordView v x) x = recordView v x) ∧
    (∀ (v : List Int) (x : Int), v.Nodup → (recordView v x).Nodup) := by
  refine ⟨fun v x h => by simp [recordView, h],
          fun v x h => by simp [recordView, h], fun v x => ?_, fun v x h => ?_⟩
  · by_cases h : x ∈ v
    · simp [recordView, h]
    · have hmem : x ∈ v ++ [x] := by simp
      simp [recordView, h, hmem]
  · by_cases hx : x ∈ v
    · simpa [recordView, hx] using h
    · simp [recordView, hx, List.nodup_append, h]

/-- Witness for claim C8 at the list `[1, 2]`. -/
theorem C8_recordView_witness :
    ((2 : Int) ∈ [1, 2] ∧ recordView [1, 2] 2 = [1, 2]) ∧
    ((3 : Int) ∉ [1, 2] ∧ recordView [1, 2] 3 = [1, 2, 3]) ∧
    recordView (recordView [1, 2] 3) 3 = recordView [1, 2] 3 ∧
    (([1, 2] : List Int).Nodup ∧ (recordView [1, 2] 3).Nodup) :=
  ⟨⟨by decide, C8_recordView_idempotent.1 [1, 2] 2 (by decide)⟩,
   ⟨by decide, C8_recordView_idempotent.2.1 [1, 2] 3 (by decide)⟩,
   C8_recordView_idempotent.2.2.1 [1, 2] 3,
   ⟨by decide, C8_recordView_idempotent.2.2.2 [1, 2] 3 (by decide)⟩⟩

/-! ## Claim C10 -/

/-- Claim C10: `delete_story_from_recently_deleted`, invoked by the owner on a
story whose `deleted_at` is set, only clears `deleted_at`: the result is the
same table with the matched row rewritten to `deleted_at = none`, every other
stored field of that row and every other row unchanged, the row count
preserved, and no object-store deletions issued (the empty second component). -/
theorem C10_clears_deletedAt_only (uid : Int) (sid : Nat)
    (stories : List StoryRec) (st : StoryRec)
    (hfind : stories.find? (fun t => t.id == sid && t.deletedAt != none) = some st)
    (hown : st.userId = uid) :
    deleteStoryFromRecentlyDeleted uid sid stories =
      .ok (stories.map (fun t =>
        if t.id == sid then { t with deletedAt := none } else t), []) ∧
    (stories.map (fun t =>
        if t.id == sid then { t with deletedAt := none } else t)).length
      = stories.length ∧
    (∀ t : StoryRec, t.id ≠ sid →
        (if t.id == sid then { t with deletedAt := none } else t) = t) ∧
    (∀ t : StoryRec, t.id = sid →
        (if t.id == sid then { t with deletedAt := none } else t) =
          { t with deletedAt := none } ∧
        ({ t with deletedAt := none } : StoryRec).expiresAt = t.expiresAt ∧
        ({ t with deletedAt := none } : StoryRec).archive = t.archive ∧
        ({ t with deletedAt := none } : StoryRec).highlight = t.highlight ∧
        ({ t with deletedAt := none } : StoryRec).viewers = t.viewers ∧
        ({ t with deletedAt := none } : StoryRec).s3Key = t.s3Key ∧
        ({ t with deletedAt := none } : StoryRec).thumbnailKey = t.thumbnailKey ∧
        ({ t with deletedAt := none } : StoryRec).createdAt = t.createdAt ∧
        ({ t with deletedAt := none } : StoryRec).userId = t.userId) := by
  refine ⟨by simp [deleteStoryFromRecentlyDeleted, hfind, hown], by simp, ?_, ?_⟩
  · intro t ht; simp [ht]
  · intro t ht; simp [ht]

/-- Witness for claim C10: owner 7 clears the soft-delete marker of story 1. -/
theorem C10_witness :
    (([exStorySoftDeleted].find?
        (fun t => t.id == 1 && t.deletedAt != none) = some exStorySoftDeleted) ∧
      exStorySoftDeleted.userId = 7) ∧
    (deleteStoryFromRecentlyDeleted 7 1 [exStorySoftDeleted] =
        .ok ([exStorySoftDeleted].map (fun t =>
          if t.id == 1 then { t with deletedAt := none } else t), []) ∧
      ([exStorySoftDeleted].map (fun t =>
          if t.id == 1 then { t with deletedAt := none } else t)).length
        = [exStorySoftDeleted].length ∧
      (∀ t : StoryRec, t.id ≠ 1 →
          (if t.id == 1 then { t with deletedAt := none } else t) = t) ∧
      (∀ t : StoryRec, t.id = 1 →
          (if t.id == 1 then { t with deletedAt := none } else t) =
            { t with deletedAt := none } ∧
          ({ t with deletedAt := none } : StoryRec).expiresAt = t.expiresAt ∧
          ({ t with deletedAt := none } : StoryRec).archive = t.archive ∧
          ({ t with deletedAt := none } : StoryRec).highlight = t.highlight ∧
          ({ t with deletedAt := none } : StoryRec).viewers = t.viewers ∧
          ({ t with deletedAt := none } : StoryRec).s3Key = t.s3Key ∧
          ({ t with deletedAt := none } : StoryRec).thumbnailKey = t.thumbnailKey ∧
          ({ t with deletedAt := none } : StoryRec).createdAt = t.createdAt ∧
          ({ t with deletedAt := none } : StoryRec).userId = t.userId)) :=
  ⟨⟨by decide, by decide⟩,
   C10_clears_deletedAt_only 7 1 [exStorySoftDeleted] exStorySoftDeleted
     (by decide) (by decide)⟩

/-! ## Claim C4 -/

/-- Claim C4: over the three privacy tiers, an owner-viewer always passes the
visibility filter of `list_user_stories` regardless of tier and relations, and
for a non-owner viewer both that filter and the tier checks of
`react_to_story` agree exactly with the eligibility table of section 4.2 of
the specification: public always, private iff accepted non-blocked follower,
close friends iff listed close friend.  (The separate you-cannot-react-to-your-
own-story identity check of `react_to_story` precedes these tier checks and is
the distinct layered rule of section 4.2, not part of the tier table.) -/
theorem C4_privacy_table (p : String) (uid vid : Int) (f cf : Bool)
    (hp : p = "public" ∨ p = "private" ∨ p = "close friends") :
    (uid = vid → viewFilterPasses uid vid p f cf = true) ∧
    (uid ≠ vid →
      viewFilterPasses uid vid p f cf = specTierEligible p f cf ∧
      reactTierRejects p f cf = !specTierEligible p f cf) := by
  constructor
  · intro h
    simp [viewFilterPasses, h]
  · intro hne
    have huv : (uid == vid) = false := by simp [hne]
    rcases hp with h | h | h <;> subst h <;>
      constructor <;>
        simp [viewFilterPasses, specTierEligible, reactTierRejects, huv]

/-- Witness for claim C4 at the private tier with a follower viewer, a
non-follower viewer, and the owner. -/
theorem C4_witness :
    (("private" = "public" ∨ "private" = "private" ∨ "private" = "close friends") ∧
      (7 : Int) = 7 ∧ viewFilterPasses 7 7 "private" false false = true) ∧
    ((7 : Int) ≠ 3 ∧
      viewFilterPasses 7 3 "private" true false = specTierEligible "private" true false ∧
      reactTierRejects "private" false true = !specTierEligible "private" false true) :=
  ⟨⟨by simp, rfl, (C4_privacy_table "private" 7 7 false false (by simp)).1 rfl⟩,
   ⟨by decide,
    ((C4_privacy_table "private" 7 3 true false (by simp)).2 (by decide)).1,
    ((C4_privacy_table "private" 7 3 false true (by simp)).2 (by decide)).2⟩⟩

/-! ## Claim C9 -/

/-- Claim C9: in `vote_poll` and `record_answer_for_quiz` a request selecting
option index 0 is always answered with the 400 Missing-field response before
the story, the sticker or the option bounds are consulted (the result does not
depend on the database at all); yet index 0 passes the later bounds check
whenever the option list is non-empty; consequently every stored response
carries an option index of at least 1. -/
theorem C9_option_zero_rejected :
    (∀ (db : PollDB) (sid : Nat) (u : Int),
        votePoll db sid u 0 = .badMissingField) ∧
    (∀ (db : PollDB) (sid : Nat) (u : Int),
        recordAnswerForQuiz db sid u 0 = .badMissingField) ∧
    (∀ opts : List String, opts ≠ [] → optionIndexInvalid 0 opts = false) ∧
    (∀ (db : PollDB) (sid : Nat) (u i : Int) (r : StickerResponseRec) (txt : String),
        votePoll db sid u i = .created r txt → r.selectedOption = some i ∧ 1 ≤ i) ∧
    (∀ (db : PollDB) (sid : Nat) (u i : Int) (r : StickerResponseRec) (txt : String),
        recordAnswerForQuiz db sid u i = .created r txt →
          r.selectedOption = some i ∧ 1 ≤ i) := by
  refine ⟨fun db sid u => by simp [votePoll],
          fun db sid u => by simp [recordAnswerForQuiz],
          fun opts h => by
            simp [optionIndexInvalid]
            exact h,
          fun db sid u i r txt h => ?_, fun db sid u i r txt h => ?_⟩
  · unfold votePoll at h
    by_cases h0 : (i == 0 || u == 0) = true
    · rw [if_pos h0] at h; cases h
    · rw [if_neg h0] at h
      have hi0 : i ≠ 0 := by
        intro hi; apply h0; simp [hi]
      rcases hfind : PollDB.stories db |>.find? (fun st => st.id == sid) with _ | story
      · simp only [hfind] at h; cases h
      · simp only [hfind] at h
        by_cases hownr : (story.userId == u) = true
        · rw [if_pos hownr] at h; cases h
        · rw [if_neg hownr] at h
          rcases hst : PollDB.stickers db |>.find?
              (fun t => t.storyId == sid && t.type == "poll") with _ | sticker
          · simp only [hst] at h; cases h
          · simp only [hst] at h
            rcases hopts : sticker.options with _ | opts
            · simp only [hopts] at h; cases h
            · simp only [hopts] at h
              by_cases hbounds : optionIndexInvalid i opts = true
              · rw [if_pos hbounds] at h; cases h
              · rw [if_neg hbounds] at h
                by_cases hdup : (PollDB.responses db |>.any (fun rr =>
                    rr.stickerId == sticker.id && rr.userId == u)) = true
                · rw [if_pos hdup] at h; cases h
                · rw [if_neg hdup] at h
                  cases h
                  refine ⟨rfl, ?_⟩
                  simp only [optionIndexInvalid, Bool.or_eq_true, decide_eq_true_eq,
                    not_or] at hbounds
                  push_neg at hbounds
                  omega
  · unfold recordAnswerForQuiz at h
    by_cases h0 : (i == 0 || u == 0) = true
    · rw [if_pos h0] at h; cases h
    · rw [if_neg h0] at h
      have hi0 : i ≠ 0 := by
        intro hi; apply h0; simp [hi]
      rcases hfind : PollDB.stories db |>.find? (fun st => st.id == sid) with _ | story
      · simp only [hfind] at h; cases h
      · simp only [hfind] at h
        by_cases hownr : (story.userId == u) = true
        · rw [if_pos hownr] at h; cases h
        · rw [if_neg hownr] at h
          rcases hst : PollDB.stickers db |>.find?
              (fun t => t.storyId == sid && t.type == "quiz") with _ | sticker
          · simp only [hst] at h; cases h
          · simp only [hst] at h
            rcases hopts : sticker.options with _ | opts
            · simp only [hopts] at h; cases h
            · simp only [hopts] at h
              by_cases hbounds : optionIndexInvalid i opts = true
              · rw [if_pos hbounds] at h; cases h
              · rw [if_neg hbounds] at h
                by_cases hdup : (PollDB.responses db |>.any (fun rr =>
                    rr.stickerId == sticker.id && rr.userId == u)) = true
                · rw [if_pos hdup] at h; cases h
                · rw [if_neg hdup] at h
                  cases h
                  refine ⟨rfl, ?_⟩
                  simp only [optionIndexInvalid, Bool.or_eq_true, decide_eq_true_eq,
                    not_or] at hbounds
                  push_neg at hbounds
                  omega

/-- Witness for claim C9: option 0 is rejected on the concrete poll database;
index 0 is in bounds for the two-option list; and the successful vote of user 3
for option 1 records index 1. -/
theorem C9_witness :
    (votePoll exPollDB 1 3 0 = .badMissingField ∧
      recordAnswerForQuiz exPollDB 1 3 0 = .badMissingField) ∧
    (["Yes", "No"] ≠ ([] : List String) ∧ optionIndexInvalid 0 ["Yes", "No"] = false) ∧
    (votePoll exPollDB 1 3 1 = .created exPollResp "No" ∧
      exPollResp.selectedOption = some 1 ∧ (1 : Int) ≤ 1) :=
  ⟨⟨C9_option_zero_rejected.1 exPollDB 1 3, C9_option_zero_rejected.2.1 exPollDB 1 3⟩,
   ⟨by decide, C9_option_zero_rejected.2.2.1 ["Yes", "No"] (by decide)⟩,
   ⟨by decide, C9_option_zero_rejected.2.2.2.1 exPollDB 1 3 1 exPollResp "No" (by decide)⟩⟩

/-! ## Claim C1 -/

/-- After one sweep pass, a surviving story that is still expired and
unarchived is highlighted, inside its soft-delete window, or had a failing
media delete (assuming every story has an owner row, as the non-null foreign
key guarantees). -/
theorem runCleanup_post (users : Int → Option UserRec) (deleteOk : String → Bool)
    (now : Int) :
    ∀ stories : List StoryRec,
      (∀ s ∈ stories, (users s.userId).isSome = true) →
      ∀ s2 ∈ (runCleanup users deleteOk now stories).1,
        s2.expiresAt ≤ now → s2.archive = false →
        s2.highlight = true ∨ inSoftDeleteWindow now s2 = true ∨
          (deleteOk s2.s3Key && deleteOk s2.thumbnailKey) = false := by
  intro stories
  induction stories with
  | nil => intro _ s2 hs2; simp [runCleanup] at hs2
  | cons st rest ih =>
    intro hown s2 hs2 hexp harch
    have hownrest : ∀ s ∈ rest, (users s.userId).isSome = true :=
      fun s hs => hown s (List.mem_cons_of_mem st hs)
    rw [runCleanup] at hs2
    by_cases hsel : sweepSelected users now st = true
    · rw [if_pos hsel] at hs2
      rcases hc : cleanupStory users deleteOk now st with ⟨o, log⟩
      rw [hc] at hs2
      cases o with
      | some st2 =>
        simp only at hs2
        rcases List.mem_cons.mp hs2 with rfl | hmem
        · unfold cleanupStory at hc
          by_cases ha : autoArchiveEnabled users st.userId = true
          · rw [if_pos ha] at hc
            injection hc with hc1 hc2
            injection hc1 with hc1
            rw [← hc1] at harch
            simp at harch
          · rw [if_neg ha] at hc
            by_cases hw : inSoftDeleteWindow now st = true
            · rw [if_pos hw] at hc
              injection hc with hc1 hc2
              injection hc1 with hc1
              rw [← hc1]
              exact Or.inr (Or.inl hw)
            · rw [if_neg hw] at hc
              by_cases hh : st.highlight = true
              · rw [if_pos hh] at hc
                injection hc with hc1 hc2
                injection hc1 with hc1
                rw [← hc1]
                exact Or.inl hh
              · rw [if_neg hh] at hc
                by_cases hd1 : deleteOk st.s3Key = true
                · rw [if_pos hd1] at hc
                  by_cases hd2 : deleteOk st.thumbnailKey = true
                  · rw [if_pos hd2] at hc
                    injection hc with hc1 hc2
                    cases hc1
                  · rw [if_neg hd2] at hc
                    injection hc with hc1 hc2
                    injection hc1 with hc1
                    rw [← hc1]
                    refine Or.inr (Or.inr ?_)
                    simp [Bool.eq_false_iff.mpr hd2]
                · rw [if_neg hd1] at hc
                  injection hc with hc1 hc2
                  injection hc1 with hc1
                  rw [← hc1]
                  refine Or.inr (Or.inr ?_)
                  simp [Bool.eq_false_iff.mpr hd1]
        · exact ih hownrest s2 hmem hexp harch
      | none =>
        simp only at hs2
        exact ih hownrest s2 hs2 hexp harch
    · rw [if_neg hsel] at hs2
      rcases List.mem_cons.mp hs2 with rfl | hmem
      · exfalso
        apply hsel
        have hsome := hown s2 (List.mem_cons_self s2 rest)
        simp [sweepSelected, hexp, harch, hsome]
      · exact ih hownrest s2 hmem hexp harch

/-- Claim C1: one pass of `run_cleanup` treats a story with
`expires_at <= now` and `archive = false` exactly as specified: owner
auto-archive sets the flag and stops; a soft-deleted story inside its 30-day
window is left as is; a highlighted story is left untouched; otherwise the two
backing media objects are deleted and the row is purged, and a failing media
delete abandons the story for this pass with the row kept.  Consequently,
after the sweep no surviving story with `expires_at <= now` and
`archive = false` remains unless it is highlighted, inside its soft-delete
window, or its media delete failed. -/
theorem C1_sweep_lifecycle (users : Int → Option UserRec)
    (deleteOk : String → Bool) (now : Int) (stories : List StoryRec)
    (st : StoryRec) (u : UserRec)
    (hown : ∀ s ∈ stories, (users s.userId).isSome = true)
    (hu : users st.userId = some u) :
    (st.expiresAt ≤ now → st.archive = false →
      ((u.autoArchiveStories = true →
          runCleanup users deleteOk now [st] = ([{ st with archive := true }], [])) ∧
       (u.autoArchiveStories = false → inSoftDeleteWindow now st = true →
          runCleanup users deleteOk now [st] = ([st], [])) ∧
       (u.autoArchiveStories = false → inSoftDeleteWindow now st = false →
          st.highlight = true → runCleanup users deleteOk now [st] = ([st], [])) ∧
       (u.autoArchiveStories = false → inSoftDeleteWindow now st = false →
          st.highlight = false → deleteOk st.s3Key = true →
          deleteOk st.thumbnailKey = true →
          runCleanup users deleteOk now [st] = ([], [st.s3Key, st.thumbnailKey])) ∧
       (u.autoArchiveStories = false → inSoftDeleteWindow now st = false →
          st.highlight = false → (deleteOk st.s3Key && deleteOk st.thumbnailKey) = false →
          (runCleanup users deleteOk now [st]).1 = [st]))) ∧
    (∀ s2 ∈ (runCleanup users deleteOk now stories).1,
       s2.expiresAt ≤ now → s2.archive = false →
       s2.highlight = true ∨ inSoftDeleteWindow now s2 = true ∨
         (deleteOk s2.s3Key && deleteOk s2.thumbnailKey) = false) := by
  constructor
  · intro hexp harch
    have hsel : sweepSelected users now st = true := by
      simp [sweepSelected, hexp, harch, hu]
    have haa : autoArchiveEnabled users st.userId = u.autoArchiveStories := by
      simp [autoArchiveEnabled, hu]
    refine ⟨fun h1 => ?_, fun h1 h2 => ?_, fun h1 h2 h3 => ?_,
            fun h1 h2 h3 h4 h5 => ?_, fun h1 h2 h3 h4 => ?_⟩
    · simp [runCleanup, hsel, cleanupStory, haa, h1]
    · simp [runCleanup, hsel, cleanupStory, haa, h1, h2]
    · simp [runCleanup, hsel, cleanupStory, haa, h1, h2, h3]
    · simp [runCleanup, hsel, cleanupStory, haa, h1, h2, h3, h4, h5]
    · rcases Bool.and_eq_false_iff.mp h4 with hd | hd
      · simp [runCleanup, hsel, cleanupStory, haa, h1, h2, h3, hd]
      · by_cases hd1 : deleteOk st.s3Key = true
        · simp [runCleanup, hsel, cleanupStory, haa, h1, h2, h3, hd1, hd]
        · simp [runCleanup, hsel, cleanupStory, haa, h1, h2, h3,
            Bool.eq_false_iff.mpr hd1]
  · exact runCleanup_post users deleteOk now stories hown

/-- Witness for claim C1: the sweep at time 500 over the concrete stories
table, instantiated at the expired story of user 7 (auto-archive disabled). -/
theorem C1_witness :
    ((∀ s ∈ exStoriesSweep, (exUsers s.userId).isSome = true) ∧
      exUsers exStorySweep.userId = some { id := 7, autoArchiveStories := false }) ∧
    ((exStorySweep.expiresAt ≤ 500 → exStorySweep.archive = false →
      ((({ id := 7, autoArchiveStories := false } : UserRec).autoArchiveStories = true →
          runCleanup exUsers exDeleteOk 500 [exStorySweep] =
            ([{ exStorySweep with archive := true }], [])) ∧
       (({ id := 7, autoArchiveStories := false } : UserRec).autoArchiveStories = false →
          inSoftDeleteWindow 500 exStorySweep = true →
          runCleanup exUsers exDeleteOk 500 [exStorySweep] = ([exStorySweep], [])) ∧
       (({ id := 7, autoArchiveStories := false } : UserRec).autoArchiveStories = false →
          inSoftDeleteWindow 500 exStorySweep = false →
          exStorySweep.highlight = true →
          runCleanup exUsers exDeleteOk 500 [exStorySweep] = ([exStorySweep], [])) ∧
       (({ id := 7, autoArchiveStories := false } : UserRec).autoArchiveStories = false →
          inSoftDeleteWindow 500 exStorySweep = false →
          exStorySweep.highlight = false → exDeleteOk exStorySweep.s3Key = true →
          exDeleteOk exStorySweep.thumbnailKey = true →
          runCleanup exUsers exDeleteOk 500 [exStorySweep] =
            ([], [exStorySweep.s3Key, exStorySweep.thumbnailKey])) ∧
       (({ id := 7, autoArchiveStories := false } : UserRec).autoArchiveStories = false →
          inSoftDeleteWindow 500 exStorySweep = false →
          exStorySweep.highlight = false →
          (exDeleteOk exStorySweep.s3Key && exDeleteOk exStorySweep.thumbnailKey) = false →
          (runCleanup exUsers exDeleteOk 500 [exStorySweep]).1 = [exStorySweep]))) ∧
    (∀ s2 ∈ (runCleanup exUsers exDeleteOk 500 exStoriesSweep).1,
       s2.expiresAt ≤ 500 → s2.archive = false →
       s2.highlight = true ∨ inSoftDeleteWindow 500 s2 = true ∨
         (exDeleteOk s2.s3Key && exDeleteOk s2.thumbnailKey) = false)) :=
  ⟨⟨by decide, by decide⟩,
   C1_sweep_lifecycle exUsers exDeleteOk 500 exStoriesSweep exStorySweep
     { id := 7, autoArchiveStories := false } (by decide) (by decide)⟩

/-! ## Claim C6 -/

/-- Claim C6: for base-query rows sorted by non-increasing time with distinct
authors, a follow-up page requested with the cursor set to the time of the
last previously returned entry contains only entries strictly below cursor
minus one microsecond; every such entry is strictly older than every entry of
the previous page and its author never repeats an author of the previous
page; and `has_more` is true exactly when the page length equals the
requested limit. -/
theorem C6_cursor_pagination (rows : List FeedRow) (skip : FeedRow → Bool)
    (c0 : Option Int) (limit limit2 : Nat) (last : FeedRow)
    (hsorted : rows.Pairwise (fun a b => b.time ≤ a.time))
    (hnd : (rows.map (fun r => r.userId)).Nodup)
    (hlast : (feedPage rows skip c0 limit).getLast? = some last) :
    (∀ r2 ∈ feedPage rows skip (some last.time) limit2, r2.time < last.time - 1) ∧
    (∀ r2 ∈ feedPage rows skip (some last.time) limit2,
      ∀ r1 ∈ feedPage rows skip c0 limit, r2.time < r1.time ∧ r2.userId ≠ r1.userId) ∧
    (hasMore (feedPage rows skip (some last.time) limit2) limit2 = true ↔
      (feedPage rows skip (some last.time) limit2).length = limit2) := by
  have hbound : ∀ r2 ∈ feedPage rows skip (some last.time) limit2,
      r2.time < last.time - 1 := by
    intro r2 hr2
    have h1 := List.mem_of_mem_take hr2
    have h2 := List.mem_of_mem_filter h1
    have h3 := List.mem_filter.mp h2
    simpa using h3.2
  refine ⟨hbound, ?_, by simp [hasMore]⟩
  intro r2 hr2 r1 hr1
  have hpage1sorted : (feedPage rows skip c0 limit).Pairwise
      (fun a b => b.time ≤ a.time) :=
    List.Pairwise.sublist (feedPage_sublist rows skip c0 limit) hsorted
  have hge : last.time ≤ r1.time :=
    time_ge_getLast _ last hpage1sorted hlast r1 hr1
  have hlt : r2.time < r1.time := by
    have := hbound r2 hr2
    omega
  refine ⟨hlt, fun hid => ?_⟩
  have hr2rows := feedPage_subset rows skip (some last.time) limit2 r2 hr2
  have hr1rows := feedPage_subset rows skip c0 limit r1 hr1
  have : r2 = r1 := map_nodup_inj rows (fun r => r.userId) hnd r2 hr2rows r1 hr1rows hid
  rw [this] at hlt
  omega

/-- Witness for claim C6: four rows at times 1000, 900, 800, 700 with author 2
skipped; the first page of size 2 ends at time 800 and the cursored second
page returns the row at 700. -/
theorem C6_witness :
    (exRows.Pairwise (fun a b => b.time ≤ a.time) ∧
      (exRows.map (fun r => r.userId)).Nodup ∧
      (feedPage exRows exSkip none 2).getLast? = some { userId := 3, time := 800 }) ∧
    ((∀ r2 ∈ feedPage exRows exSkip (some 800) 2, r2.time < 800 - 1) ∧
     (∀ r2 ∈ feedPage exRows exSkip (some 800) 2,
        ∀ r1 ∈ feedPage exRows exSkip none 2, r2.time < r1.time ∧ r2.userId ≠ r1.userId) ∧
     (hasMore (feedPage exRows exSkip (some 800) 2) 2 = true ↔
        (feedPage exRows exSkip (some 800) 2).length = 2)) :=
  ⟨⟨by decide, by decide, by decide⟩,
   C6_cursor_pagination exRows exSkip none 2 2 { userId := 3, time := 800 }
     (by decide) (by decide) (by decide)⟩

/-! ## Claim C5 -/

/-- Claim C5, counterexample: viewer 1 is an accepted, unblocked follower of
author 2 and not a close friend; author 2 has a most recent eligible story
(the older public active story `exS1`), so per the claim the feed should carry
an entry for author 2 determined by it; but the code skips author 2 entirely,
because the skip decision is driven by the author's most recent story overall
(the newer close-friends story `exS2`). -/
theorem C5_counterexample :
    specMostRecentEligible 500 exFeedDB 1 2 = some exS1 ∧
    isAcceptedFollower exFeedDB 1 2 = true ∧
    isCloseFriendOf exFeedDB 2 1 = false ∧
    feedAuthorEntry 500 exFeedDB 1 2 = none := by
  decide

/-- Claim C5 as amended: a non-self feed entry is determined by the author's
most recent story overall, with no active or privacy filter: the author is
skipped exactly when that story has close-friends privacy and the viewer is
not a close friend (even when older eligible stories exist); when an entry is
produced, the author is a base-query candidate, the entry timestamp is the
maximum `created_at` over the author's Active stories regardless of privacy
(so a close-friends story is not excluded from the timestamp candidates), and
the entry privacy is that of the most recent story overall. -/
theorem C5_amended :
    (∀ (now : Int) (db : RelDB) (viewerId uid : Int) (latest : StoryRec),
        latestStoryOverall db uid = some latest →
        latest.privacy = "close friends" →
        isCloseFriendOf db uid viewerId = false →
        feedAuthorEntry now db viewerId uid = none) ∧
    (∀ (now : Int) (db : RelDB) (viewerId uid : Int) (e : FeedEntry),
        feedAuthorEntry now db viewerId uid = some e →
        authorInFeedCandidates now db viewerId uid = true ∧
        e.lastStoryTime = latestActiveStoryTime now db uid ∧
        e.hasNewStories = hasNewStoriesFor now db viewerId uid ∧
        ∃ latest, latestStoryOverall db uid = some latest ∧
          e.privacy = latest.privacy ∧
          (latest.privacy = "close friends" → isCloseFriendOf db uid viewerId = true)) := by
  constructor
  · intro now db viewerId uid latest hlatest hpriv hcf
    unfold feedAuthorEntry
    by_cases hcand : authorInFeedCandidates now db viewerId uid = true
    · rw [if_pos hcand]
      simp only [hlatest]
      rw [if_pos (by simp [hpriv, hcf])]
    · rw [if_neg hcand]
  · intro now db viewerId uid e h
    unfold feedAuthorEntry at h
    by_cases hcand : authorInFeedCandidates now db viewerId uid = true
    · rw [if_pos hcand] at h
      rcases hlatest : latestStoryOverall db uid with _ | latest
      · simp only [hlatest] at h; cases h
      · simp only [hlatest] at h
        by_cases hskip : (latest.privacy == "close friends" &&
            !isCloseFriendOf db uid viewerId) = true
        · rw [if_pos hskip] at h; cases h
        · rw [if_neg hskip] at h
          injection h with h
          refine ⟨hcand, by rw [← h], by rw [← h], latest, rfl, by rw [← h], ?_⟩
          intro hpriv
          rcases Bool.and_eq_false_iff.mp (Bool.eq_false_iff.mpr hskip) with hh | hh
          · exfalso
            rw [hpriv] at hh
            simp at hh
          · simpa using hh
    · rw [if_neg hcand] at h; cases h

/-- Witness for the amended claim C5: author 2 with a close-friends most
recent story is skipped for the non-close-friend follower viewer 1, while the
entry produced for author 3 carries the base-query aggregate timestamp and
the privacy of that author's most recent story. -/
theorem C5_amended_witness :
    (latestStoryOverall exFeedDB 2 = some exS2 ∧
      exS2.privacy = "close friends" ∧
      isCloseFriendOf exFeedDB 2 1 = false ∧
      feedAuthorEntry 500 exFeedDB 1 2 = none) ∧
    (feedAuthorEntry 500 exFeedDB 1 3 =
        some { userId := 3, lastStoryTime := some 300,
               hasNewStories := true, privacy := "public" } ∧
      authorInFeedCandidates 500 exFeedDB 1 3 = true ∧
      ({ userId := 3, lastStoryTime := some 300, hasNewStories := true,
         privacy := "public" } : FeedEntry).lastStoryTime =
        latestActiveStoryTime 500 exFeedDB 3 ∧
      ({ userId := 3, lastStoryTime := some 300, hasNewStories := true,
         privacy := "public" } : FeedEntry).hasNewStories =
        hasNewStoriesFor 500 exFeedDB 1 3 ∧
      ∃ latest, latestStoryOverall exFeedDB 3 = some latest ∧
        ({ userId := 3, lastStoryTime := some 300, hasNewStories := true,
           privacy := "public" } : FeedEntry).privacy = latest.privacy ∧
        (latest.privacy = "close friends" → isCloseFriendOf exFeedDB 3 1 = true)) :=
  ⟨⟨by decide, by decide, by decide,
    C5_amended.1 500 exFeedDB 1 2 exS2 (by decide) (by decide) (by decide)⟩,
   ⟨by decide,
    C5_amended.2 500 exFeedDB 1 3
      { userId := 3, lastStoryTime := some 300, hasNewStories := true,
        privacy := "public" } (by decide)⟩⟩

/-! ## Claim C2: helper lemmas on list primitives -/

/-- A lookup whose predicate has a unique satisfier returns it. -/
theorem find?_eq_of_unique_pred {α : Type} (l : List α) (p : α → Bool) (r : α)
    (hr : r ∈ l) (hpr : p r = true)
    (huniq : ∀ x ∈ l, p x = true → x = r) : l.find? p = some r := by
  induction l with
  | nil => simp at hr
  | cons a t ih =>
    by_cases hpa : p a = true
    · rw [List.find?_cons_of_pos _ hpa]
      rw [huniq a (List.mem_cons_self a t) hpa]
    · rw [List.find?_cons_of_neg _ (by simpa using hpa)]
      rcases List.mem_cons.mp hr with rfl | hrt
      · exact absurd hpr hpa
      · exact ih hrt (fun x hx hpx => huniq x (List.mem_cons_of_mem a hx) hpx)

/-- Deleting a highlight row by primary key equals filtering it out, when ids
are unique. -/
theorem eraseFirstById_eq_filter (hs : List HighlightRec) (hid : Nat)
    (hnd : (hs.map (fun h => h.id)).Nodup) :
    eraseFirstById hs hid = hs.filter (fun x => !(x.id == hid)) := by
  induction hs with
  | nil => rfl
  | cons a t ih =>
    simp only [List.map_cons, List.nodup_cons] at hnd
    by_cases ha : a.id = hid
    · rw [eraseFirstById, if_pos (by simp [ha])]
      rw [List.filter_cons_of_neg (by simp [ha])]
      have : ∀ x ∈ t, (!(x.id == hid)) = true := by
        intro x hx
        have : x.id ≠ hid := by
          intro hxe
          apply hnd.1
          have hmem : x.id ∈ List.map (fun h => h.id) t :=
            List.mem_map_of_mem (fun h => h.id) hx
          rw [hxe] at hmem
          rw [ha]
          exact hmem
        simp [this]
      exact (List.filter_eq_self.mpr this).symm
    · rw [eraseFirstById, if_neg (by simp [ha])]
      rw [List.filter_cons_of_pos (by simp [ha])]
      rw [ih hnd.2]

/-- Deleting a highlight row by an absent primary key is the identity. -/
theorem eraseFirstById_of_not_mem (hs : List HighlightRec) (hid : Nat)
    (habs : ∀ x ∈ hs, x.id ≠ hid) : eraseFirstById hs hid = hs := by
  induction hs with
  | nil => rfl
  | cons a t ih =>
    rw [eraseFirstById, if_neg (by simp [habs a (List.mem_cons_self a t)])]
    rw [ih (fun x hx => habs x (List.mem_cons_of_mem a hx))]

/-- Mutating the first highlight row with a given story id equals a pointwise
rewrite, when story ids are unique. -/
theorem updateFirstByStoryId_eq_map (hs : List HighlightRec) (sid : Nat)
    (f : HighlightRec → HighlightRec)
    (hnd : (hs.map (fun h => h.storyId)).Nodup) :
    updateFirstByStoryId hs sid f =
      hs.map (fun x => if x.storyId == sid then f x else x) := by
  induction hs with
  | nil => rfl
  | cons a t ih =>
    simp only [List.map_cons, List.nodup_cons] at hnd
    by_cases ha : a.storyId = sid
    · rw [updateFirstByStoryId, if_pos (by simp [ha]), List.map_cons,
        if_pos (by simp [ha])]
      have : ∀ x ∈ t, (if x.storyId == sid then f x else x) = x := by
        intro x hx
        have : x.storyId ≠ sid := by
          intro hxe
          apply hnd.1
          have hmem : x.storyId ∈ List.map (fun h => h.storyId) t :=
            List.mem_map_of_mem (fun h => h.storyId) hx
          rw [hxe] at hmem
          rw [ha]
          exact hmem
        simp [this]
      rw [List.map_congr_left this, List.map_id']
    · rw [updateFirstByStoryId, if_neg (by simp [ha]), List.map_cons,
        if_neg (by simp [ha]), ih hnd.2]

/-- A story record whose highlight flag is already set is unchanged by setting
it. -/
theorem set_highlight_eta (t : StoryRec) (h : t.highlight = true) :
    ({ t with highlight := true } : StoryRec) = t := by
  cases t
  simp_all

/-- A pointwise rewrite that does not affect a Boolean predicate commutes with
filtering by it. -/
theorem filter_map_comm {α : Type} (l : List α) (g : α → α) (p : α → Bool)
    (hp : ∀ x, p (g x) = p x) :
    (l.map g).filter p = (l.filter p).map g := by
  induction l with
  | nil => rfl
  | cons a t ih =>
    by_cases ha : p a = true
    · rw [List.map_cons, List.filter_cons_of_pos (by rw [hp]; exact ha),
        List.filter_cons_of_pos ha, List.map_cons, ih]
    · rw [List.map_cons, List.filter_cons_of_neg (by rw [hp]; simpa using ha),
        List.filter_cons_of_neg (by simpa using ha), ih]

/-! ## Claim C2: lemmas about group orders and keys -/

/-- Group orders of a cons. -/
theorem groupOrders_cons (h : HighlightRec) (rest : List HighlightRec)
    (name cover : String) :
    groupOrders (h :: rest) name cover =
      if (h.name == name && h.coverImageKey == cover) = true
      then h.order ::ₘ groupOrders rest name cover
      else groupOrders rest name cover := by
  by_cases hg : (h.name == name && h.coverImageKey == cover) = true
  · rw [if_pos hg]
    unfold groupOrders
    rw [List.filter_cons, if_pos hg, List.map_cons]
    exact (Multiset.cons_coe _ _).symm
  · rw [if_neg hg]
    unfold groupOrders
    rw [List.filter_cons, if_neg hg]

/-- Group orders of an append. -/
theorem groupOrders_append (l1 l2 : List HighlightRec) (name cover : String) :
    groupOrders (l1 ++ l2) name cover =
      groupOrders l1 name cover + groupOrders l2 name cover := by
  unfold groupOrders
  rw [List.filter_append, List.map_append]
  exact (Multiset.coe_add _ _).symm

/-- Group key of a cons. -/
theorem groupKey_cons (h : HighlightRec) (rest : List HighlightRec)
    (name cover : String) :
    groupKey (h :: rest) name cover =
      if (h.name == name && h.coverImageKey == cover) = true
      then (h.storyId, h.order) ::ₘ groupKey rest name cover
      else groupKey rest name cover := by
  by_cases hg : (h.name == name && h.coverImageKey == cover) = true
  · rw [if_pos hg]
    unfold groupKey
    rw [List.filter_cons, if_pos hg, List.map_cons]
    exact (Multiset.cons_coe _ _).symm
  · rw [if_neg hg]
    unfold groupKey
    rw [List.filter_cons, if_neg hg]

/-- Group key of an append. -/
theorem groupKey_append (l1 l2 : List HighlightRec) (name cover : String) :
    groupKey (l1 ++ l2) name cover =
      groupKey l1 name cover + groupKey l2 name cover := by
  unfold groupKey
  rw [List.filter_append, List.map_append]
  exact (Multiset.coe_add _ _).symm

/-- The first component of a group-key member is the story id of some row. -/
theorem groupKey_fst_mem (hs : List HighlightRec) (name cover : String)
    (pr : Nat × Int) (hpr : pr ∈ groupKey hs name cover) :
    pr.1 ∈ hs.map (fun h => h.storyId) := by
  unfold groupKey at hpr
  rw [Multiset.mem_coe] at hpr
  rcases List.mem_map.mp hpr with ⟨h, hh, rfl⟩
  exact List.mem_map_of_mem _ (List.mem_of_mem_filter hh)

/-- Group orders are the second projection of the group key. -/
theorem groupOrders_eq_key (hs : List HighlightRec) (name cover : String) :
    groupOrders hs name cover = (groupKey hs name cover).map Prod.snd := by
  unfold groupOrders groupKey
  rw [Multiset.map_coe, List.map_map]
  rfl

/-- The order of an in-group row is a member of the group orders. -/
theorem groupOrders_mem (hs : List HighlightRec) (name cover : String)
    (r : HighlightRec) (hr : r ∈ hs)
    (hg : (r.name == name && r.coverImageKey == cover) = true) :
    r.order ∈ groupOrders hs name cover := by
  unfold groupOrders
  rw [Multiset.mem_coe]
  exact List.mem_map_of_mem _ (List.mem_filter.mpr ⟨hr, hg⟩)

/-- Filtering the highlights by a story-id condition filters the group key by
the same condition on the first component. -/
theorem groupKey_filter_sid (hs : List HighlightRec) (name cover : String)
    (q : Nat → Prop) [DecidablePred q] :
    groupKey (hs.filter (fun h => decide (q h.storyId))) name cover =
      (groupKey hs name cover).filter (fun pr => q pr.1) := by
  induction hs with
  | nil => rfl
  | cons a t ih =>
    by_cases hq : q a.storyId
    · rw [List.filter_cons, if_pos (by simpa using hq), groupKey_cons, groupKey_cons]
      by_cases hg : (a.name == name && a.coverImageKey == cover) = true
      · rw [if_pos hg, if_pos hg,
          show Multiset.filter (fun pr : Nat × Int => q pr.1)
              ((a.storyId, a.order) ::ₘ groupKey t name cover) =
            (a.storyId, a.order) ::ₘ
              Multiset.filter (fun pr : Nat × Int => q pr.1) (groupKey t name cover)
          from Multiset.filter_cons_of_pos _ hq, ih]
      · rw [if_neg hg, if_neg hg, ih]
    · rw [List.filter_cons, if_neg (by simpa using hq), groupKey_cons]
      by_cases hg : (a.name == name && a.coverImageKey == cover) = true
      · rw [if_pos hg,
          show Multiset.filter (fun pr : Nat × Int => q pr.1)
              ((a.storyId, a.order) ::ₘ groupKey t name cover) =
            Multiset.filter (fun pr : Nat × Int => q pr.1) (groupKey t name cover)
          from Multiset.filter_cons_of_neg _ hq, ih]
      · rw [if_neg hg, ih]

/-- The story ids in a numbering are members of the numbered list. -/
theorem enumFrom_fst_mem (l : List Nat) :
    ∀ (i : Int) (pr : Nat × Int), pr ∈ enumFrom i l → pr.1 ∈ l := by
  induction l with
  | nil => intro i pr hpr; simp [enumFrom] at hpr
  | cons s r ih =>
    intro i pr hpr
    rw [enumFrom] at hpr
    rcases List.mem_cons.mp hpr with rfl | hmem
    · exact List.mem_cons_self s r
    · exact List.mem_cons_of_mem s (ih (i + 1) pr hmem)

/-- The orders of a numbering of a list starting at `i` are the shifted range. -/
theorem enumFrom_snd_list (l : List Nat) :
    ∀ i : Int, (enumFrom i l).map Prod.snd =
      (List.range l.length).map (fun j : Nat => i + (j : Int)) := by
  induction l with
  | nil => intro i; rfl
  | cons s r ih =>
    intro i
    rw [enumFrom, List.map_cons, ih (i + 1), List.length_cons,
      List.range_succ_eq_map, List.map_cons, List.map_map]
    congr 1
    · simp
    · apply List.map_congr_left
      intro j _
      simp only [Function.comp_apply, Nat.succ_eq_add_one]
      push_cast
      ring

/-- A numbering starting at 1 has dense orders. -/
theorem enumFrom_one_dense (l : List Nat) :
    ((((enumFrom 1 l).map Prod.snd : List Int)) : Multiset Int) =
      (Multiset.range l.length).map (fun i : Nat => (i : Int) + 1) := by
  rw [enumFrom_snd_list, ← Multiset.coe_range, Multiset.map_coe]
  congr 1
  apply List.map_congr_left
  intro j _
  ring

/-- Membership in the dense order multiset of size `n`. -/
theorem mem_dense_iff (n : Nat) (x : Int) :
    x ∈ (Multiset.range n).map (fun i : Nat => (i : Int) + 1) ↔ 1 ≤ x ∧ x ≤ n := by
  simp only [Multiset.mem_map, Multiset.mem_range]
  constructor
  · rintro ⟨i, hi, rfl⟩
    omega
  · intro hx
    refine ⟨(x - 1).toNat, by omega, by omega⟩

/-- The dense order multiset has no duplicates. -/
theorem dense_nodup (n : Nat) :
    ((Multiset.range n).map (fun i : Nat => (i : Int) + 1)).Nodup :=
  (Multiset.nodup_range n).map (fun hab => by omega)

/-- Removing an order `k` from the dense multiset 1..n and shifting every
greater order down by one yields the dense multiset 1..(n-1): the renumbering
step of `remove_highlight_from_highlights` restores density. -/
theorem dense_erase_shift (n : Nat) (k : Int) (m : Multiset Int)
    (hm : m = (Multiset.range n).map (fun i : Nat => (i : Int) + 1)) (hk : k ∈ m) :
    (m.erase k).map (fun x => if k < x then x - 1 else x) =
      (Multiset.range (n - 1)).map (fun i : Nat => (i : Int) + 1) := by
  subst hm
  have hnd := dense_nodup n
  have hkb := (mem_dense_iff n k).mp hk
  have hnder : (((Multiset.range n).map (fun i : Nat => (i : Int) + 1)).erase k).Nodup :=
    hnd.erase k
  have hmemer : ∀ x : Int,
      x ∈ ((Multiset.range n).map (fun i : Nat => (i : Int) + 1)).erase k ↔
        (x ≠ k ∧ (1 ≤ x ∧ x ≤ n)) := by
    intro x
    rw [hnd.mem_erase_iff, mem_dense_iff]
  have hinj : ∀ x ∈ ((Multiset.range n).map (fun i : Nat => (i : Int) + 1)).erase k,
      ∀ y ∈ ((Multiset.range n).map (fun i : Nat => (i : Int) + 1)).erase k,
      (if k < x then x - 1 else x) = (if k < y then y - 1 else y) → x = y := by
    intro x hx y hy hxy
    have hxb := (hmemer x).mp hx
    have hyb := (hmemer y).mp hy
    split_ifs at hxy <;> omega
  have hndL := Multiset.Nodup.map_on hinj hnder
  rw [Multiset.Nodup.ext hndL (dense_nodup (n - 1))]
  intro y
  rw [mem_dense_iff]
  constructor
  · intro hy
    rcases Multiset.mem_map.mp hy with ⟨x, hx, rfl⟩
    have hxb := (hmemer x).mp hx
    split_ifs <;> omega
  · intro hy
    by_cases hcase : y < k
    · refine Multiset.mem_map.mpr ⟨y, (hmemer y).mpr ⟨by omega, by omega, by omega⟩, ?_⟩
      rw [if_neg (by omega)]
    · refine Multiset.mem_map.mpr ⟨y + 1, (hmemer (y + 1)).mpr ⟨by omega, by omega, by omega⟩, ?_⟩
      rw [if_pos (by omega)]
      ring

/-- The decrement step of the removal routes maps the group orders pointwise:
every order above the removed one drops by one, orders of other groups are
untouched. -/
theorem groupOrders_dec (hs : List HighlightRec) (name cover : String) (k : Int) :
    groupOrders (hs.map (fun h =>
      if h.name == name && h.coverImageKey == cover && decide (k < h.order)
      then { h with order := h.order - 1 } else h)) name cover =
      (groupOrders hs name cover).map (fun x => if k < x then x - 1 else x) := by
  induction hs with
  | nil => rfl
  | cons a t ih =>
    obtain ⟨aid, asid, aname, acover, aorder, aarch⟩ := a
    dsimp only [List.map_cons]
    by_cases hg : (aname == name && acover == cover) = true
    · rcases Bool.and_eq_true_iff.mp hg with ⟨hg1, hg2⟩
      by_cases hlt : k < aorder
      · rw [if_pos (by simp [hg1, hg2, hlt]), groupOrders_cons, groupOrders_cons]
        dsimp only
        rw [if_pos hg, if_pos hg, ih, Multiset.map_cons]
        rw [if_pos hlt]
      · rw [if_neg (by simp [hlt]), groupOrders_cons, groupOrders_cons]
        rw [if_pos hg, if_pos hg, ih, Multiset.map_cons]
        rw [if_neg hlt]
    · rw [if_neg (by simp [Bool.and_eq_true_iff, hg] ), groupOrders_cons,
        groupOrders_cons]
      dsimp only
      rw [if_neg hg, if_neg hg, ih]

/-- Filtering out a single in-group row (all other rows pass the filter, and
ids are unique so the row occurs once) erases its order from the group
orders. -/
theorem groupOrders_remove_row (hs : List HighlightRec) (name cover : String)
    (p : HighlightRec → Bool) (r : HighlightRec) (hr : r ∈ hs)
    (hnd : (hs.map (fun h => h.id)).Nodup)
    (hpr : p r = false)
    (hothers : ∀ x ∈ hs, x ≠ r → p x = true)
    (hrg : (r.name == name && r.coverImageKey == cover) = true) :
    groupOrders (hs.filter p) name cover =
      (groupOrders hs name cover).erase r.order := by
  obtain ⟨l1, l2, rfl⟩ := List.append_of_mem hr
  have hnotin : r ∉ l1 ++ l2 := by
    intro hmem
    rw [List.map_append, List.map_cons] at hnd
    have h2 := (List.nodup_cons.mp (List.nodup_middle.mp hnd)).1
    apply h2
    have : r.id ∈ (l1 ++ l2).map (fun h => h.id) := List.mem_map_of_mem _ hmem
    rw [List.map_append] at this
    exact this
  have hf1 : l1.filter p = l1 := by
    apply List.filter_eq_self.mpr
    intro x hx
    refine hothers x (List.mem_append.mpr (Or.inl hx)) ?_
    intro hxr
    exact hnotin (hxr ▸ List.mem_append.mpr (Or.inl hx))
  have hf2 : l2.filter p = l2 := by
    apply List.filter_eq_self.mpr
    intro x hx
    refine hothers x (List.mem_append.mpr (Or.inr (List.mem_cons_of_mem r hx))) ?_
    intro hxr
    exact hnotin (hxr ▸ List.mem_append.mpr (Or.inr hx))
  rw [List.filter_append, hf1, List.filter_cons, if_neg (by simp [hpr]), hf2]
  rw [groupOrders_append, groupOrders_append l1 (r :: l2), groupOrders_cons,
    if_pos hrg]
  rw [← Multiset.singleton_add r.order (groupOrders l2 name cover), add_left_comm,
    Multiset.singleton_add, Multiset.erase_cons_head]

/-- Renumbering the unique in-group row carrying a story id to a fresh order
replaces its pair in the group key. -/
theorem groupKey_update (hs : List HighlightRec) (sid : Nat) (i : Int)
    (name cover : String)
    (hnd : (hs.map (fun h => h.storyId)).Nodup)
    (r : HighlightRec) (hr : r ∈ hs) (hrs : r.storyId = sid)
    (hrg : (r.name == name && r.coverImageKey == cover) = true) :
    groupKey (updateFirstByStoryId hs sid (fun h => { h with order := i }))
        name cover =
      (sid, i) ::ₘ (groupKey hs name cover).filter (fun pr => pr.1 ≠ sid) := by
  induction hs with
  | nil => cases hr
  | cons a t ih =>
    simp only [List.map_cons, List.nodup_cons] at hnd
    by_cases ha : a.storyId = sid
    · have hra : r = a := by
        rcases List.mem_cons.mp hr with rfl | hrt
        · rfl
        · exfalso
          apply hnd.1
          have hmem : r.storyId ∈ t.map (fun h => h.storyId) :=
            List.mem_map_of_mem _ hrt
          rw [hrs] at hmem
          rw [ha]
          exact hmem
      subst hra
      obtain ⟨rid, rsid, rname, rcover, rorder, rarch⟩ := r
      simp only at hrs ha hrg hnd ⊢
      rw [updateFirstByStoryId, if_pos (by simp [hrs])]
      rw [groupKey_cons, groupKey_cons]
      dsimp only
      rw [if_pos hrg, if_pos hrg]
      rw [show Multiset.filter (fun pr : Nat × Int => pr.1 ≠ sid)
            ((rsid, rorder) ::ₘ groupKey t name cover) =
          Multiset.filter (fun pr : Nat × Int => pr.1 ≠ sid)
            (groupKey t name cover)
        from Multiset.filter_cons_of_neg _ (by simp [hrs])]
      have hfix : Multiset.filter (fun pr : Nat × Int => pr.1 ≠ sid)
          (groupKey t name cover) = groupKey t name cover := by
        rw [Multiset.filter_eq_self]
        intro pr hpr
        have hm := groupKey_fst_mem t name cover pr hpr
        intro hpr1
        apply hnd.1
        rw [ha, ← hpr1]
        exact hm
      rw [hfix, hrs]
    · have hrt : r ∈ t := by
        rcases List.mem_cons.mp hr with rfl | hm
        · exact absurd hrs ha
        · exact hm
      rw [updateFirstByStoryId, if_neg (by simp [ha])]
      rw [groupKey_cons, groupKey_cons]
      by_cases hag : (a.name == name && a.coverImageKey == cover) = true
      · rw [if_pos hag, if_pos hag, ih hnd.2 hrt]
        rw [show Multiset.filter (fun pr : Nat × Int => pr.1 ≠ sid)
              ((a.storyId, a.order) ::ₘ groupKey t name cover) =
            (a.storyId, a.order) ::ₘ Multiset.filter (fun pr : Nat × Int => pr.1 ≠ sid)
              (groupKey t name cover)
          from Multiset.filter_cons_of_pos _ (by simp [ha])]
        exact Multiset.cons_swap _ _ _
      · rw [if_neg hag, if_neg hag, ih hnd.2 hrt]


/-- Density is preserved by `remove_highlight_from_highlights`: removing one
member of a dense group of size `n` and decrementing every greater order
leaves a dense group of size `n - 1`. -/
theorem removeHighlight_dense (now : Int) (deleteOk : String → Bool)
    (userId : Int) (hid : Nat) (db0 : HLDB) (h : HighlightRec) (n : Nat)
    (hfind : db0.highlights.find? (fun x =>
        x.id == hid &&
          ((findStory db0 x.storyId).map (fun st => st.userId == userId)).getD false)
      = some h)
    (hids : (db0.highlights.map (fun x => x.id)).Nodup)
    (hsids : (db0.highlights.map (fun x => x.storyId)).Nodup)
    (hdense : denseOrders (groupOrders db0.highlights h.name h.coverImageKey) n) :
    ∀ db2, removeHighlightFromHighlights now deleteOk userId hid db0 = .ok db2 →
      denseOrders (groupOrders db2.highlights h.name h.coverImageKey) (n - 1) := by
  intro db2 hrun
  have hmem := List.mem_of_find?_eq_some hfind
  have hpred := List.find?_some hfind
  rcases Bool.and_eq_true_iff.mp hpred with ⟨hhid0, hstex⟩
  have hhid : h.id = hid := by simpa using hhid0
  rcases hfs : findStory db0 h.storyId with _ | story
  · rw [hfs] at hstex; simp at hstex
  set decs := db0.highlights.map (fun x =>
    if x.name == h.name && x.coverImageKey == h.coverImageKey &&
        decide (h.order < x.order)
    then { x with order := x.order - 1 } else x) with hdecs
  have hdecids : decs.map (fun x => x.id) = db0.highlights.map (fun x => x.id) := by
    rw [hdecs, List.map_map]
    apply List.map_congr_left
    intro x _
    by_cases hc : (x.name == h.name && x.coverImageKey == h.coverImageKey &&
        decide (h.order < x.order)) = true
    · simp only [Function.comp_apply, if_pos hc]
    · simp only [Function.comp_apply, if_neg hc]
  have hdecsids : decs.map (fun x => x.storyId) =
      db0.highlights.map (fun x => x.storyId) := by
    rw [hdecs, List.map_map]
    apply List.map_congr_left
    intro x _
    by_cases hc : (x.name == h.name && x.coverImageKey == h.coverImageKey &&
        decide (h.order < x.order)) = true
    · simp only [Function.comp_apply, if_pos hc]
    · simp only [Function.comp_apply, if_neg hc]
  have hdech : (if h.name == h.name && h.coverImageKey == h.coverImageKey &&
      decide (h.order < h.order)
      then { h with order := h.order - 1 } else h) = h := by
    rw [if_neg (by simp)]
  have hhdecs : h ∈ decs := by
    rw [hdecs]
    have hm2 := List.mem_map_of_mem (fun x =>
      if x.name == h.name && x.coverImageKey == h.coverImageKey &&
          decide (h.order < x.order)
      then { x with order := x.order - 1 } else x) hmem
    simp only at hm2
    rwa [hdech] at hm2
  have hkmem : h.order ∈ groupOrders db0.highlights h.name h.coverImageKey :=
    groupOrders_mem _ _ _ h hmem (by simp)
  have hdecorders : groupOrders decs h.name h.coverImageKey =
      (groupOrders db0.highlights h.name h.coverImageKey).map
        (fun x => if h.order < x then x - 1 else x) :=
    groupOrders_dec db0.highlights h.name h.coverImageKey h.order
  have hfinal : ((groupOrders db0.highlights h.name h.coverImageKey).map
      (fun x => if h.order < x then x - 1 else x)).erase h.order =
      (Multiset.range (n - 1)).map (fun i : Nat => (i : Int) + 1) := by
    have hstep : (groupOrders db0.highlights h.name h.coverImageKey).map
        (fun x => if h.order < x then x - 1 else x) =
        h.order ::ₘ ((groupOrders db0.highlights h.name h.coverImageKey).erase
          h.order).map (fun x => if h.order < x then x - 1 else x) := by
      conv_lhs => rw [← Multiset.cons_erase hkmem]
      rw [Multiset.map_cons, if_neg (by omega)]
    rw [hstep, Multiset.erase_cons_head]
    exact dense_erase_shift n h.order _ hdense hkmem
  have hremove : ∀ p : HighlightRec → Bool, p h = false →
      (∀ x ∈ decs, x ≠ h → p x = true) →
      groupOrders (decs.filter p) h.name h.coverImageKey =
        (groupOrders decs h.name h.coverImageKey).erase h.order := by
    intro p hp hothers
    apply groupOrders_remove_row decs h.name h.coverImageKey p h hhdecs
    · rw [hdecids]; exact hids
    · exact hp
    · exact hothers
    · simp
  have hdense2 : ∀ p : HighlightRec → Bool, p h = false →
      (∀ x ∈ decs, x ≠ h → p x = true) →
      denseOrders (groupOrders (decs.filter p) h.name h.coverImageKey) (n - 1) := by
    intro p hp hothers
    unfold denseOrders
    rw [hremove p hp hothers, hdecorders]
    exact hfinal
  -- reduce the execution of the route
  unfold removeHighlightFromHighlights at hrun
  rw [hfind] at hrun
  simp only [← hdecs] at hrun
  unfold findStory at hrun
  simp only at hrun
  unfold findStory at hfs
  rw [hfs] at hrun
  simp only [updateStory, deleteStoryCascade] at hrun
  by_cases hkept : storyStillKept now story = true
  · rw [if_pos hkept] at hrun
    injection hrun with hrun
    subst hrun
    simp only
    rw [eraseFirstById_eq_filter decs hid (by rw [hdecids]; exact hids)]
    apply hdense2
    · simp [hhid]
    · intro x hx hxh
      have hxid : x.id ≠ hid := by
        intro hxid
        apply hxh
        apply map_nodup_inj decs (fun x => x.id)
          (by rw [hdecids]; exact hids) x hx h hhdecs
        show x.id = h.id
        rw [hxid, hhid]
      simp [hxid]
  · rw [if_neg hkept] at hrun
    by_cases hdel : (deleteOk story.s3Key && deleteOk story.thumbnailKey) = true
    · rw [if_pos hdel] at hrun
      injection hrun with hrun
      subst hrun
      simp only
      have hsidstory : story.id = h.storyId := by
        have hps := List.find?_some hfs
        simpa using hps
      have hnofilterid : ∀ x ∈ decs.filter (fun y => !(y.storyId == story.id)),
          x.id ≠ hid := by
        intro x hx hxid
        have hx2 := List.mem_filter.mp hx
        have hxh : x = h :=
          map_nodup_inj decs (fun y => y.id) (by rw [hdecids]; exact hids)
            x hx2.1 h hhdecs (by show x.id = h.id; rw [hxid, hhid])
        subst hxh
        have := hx2.2
        simp [hsidstory] at this
      rw [eraseFirstById_of_not_mem _ hid hnofilterid]
      apply hdense2
      · simp [hsidstory]
      · intro x hx hxh
        have hxsid : x.storyId ≠ h.storyId := by
          intro hxsid
          apply hxh
          apply map_nodup_inj decs (fun y => y.storyId)
            (by rw [hdecsids]; exact hsids) x hx h hhdecs hxsid
        simp [hsidstory, hxsid]
    · rw [if_neg hdel] at hrun
      cases hrun

/-- A row with a given story id exists exactly when the id occurs in the
story-id projection. -/
theorem exists_row_iff (l : List HighlightRec) (t : Nat) :
    (∃ x ∈ l, x.storyId = t) ↔ t ∈ l.map (fun x => x.storyId) := by
  rw [List.mem_map]

/-- Specification of the selected loop of `edit_highlight_folder`: under the
data invariants it succeeds, marks every selected story highlighted, gives the
group rows of the selected stories the orders `i, i+1, ...` in list order,
and leaves rows of unselected stories and rows outside the group untouched. -/
theorem selectLoop_spec (userId : Int) (name cover : String) :
    ∀ (sids : List Nat) (i : Int) (db : HLDB),
    sids.Nodup →
    (∀ sid ∈ sids, ∃ st ∈ db.stories, st.id = sid ∧ st.userId = userId) →
    (db.stories.map (fun st => st.id)).Nodup →
    (db.highlights.map (fun x => x.storyId)).Nodup →
    (db.highlights.map (fun x => x.id)).Nodup →
    (∀ x ∈ db.highlights, x.id < db.nextId) →
    (∀ st ∈ db.stories, (st.highlight = true ↔ ∃ x ∈ db.highlights, x.storyId = st.id)) →
    (∀ sid ∈ sids, ∀ x ∈ db.highlights, x.storyId = sid →
        (x.name == name && x.coverImageKey == cover) = true) →
    ∃ db2,
      selectLoop userId name cover sids i db = .ok (i + sids.length, db2) ∧
      db2.stories = db.stories.map (fun st =>
        if st.id ∈ sids then { st with highlight := true } else st) ∧
      groupKey db2.highlights name cover =
        (enumFrom i sids : Multiset (Nat × Int)) +
          (groupKey db.highlights name cover).filter (fun pr => pr.1 ∉ sids) ∧
      db2.highlights.filter (fun x => !(x.name == name && x.coverImageKey == cover)) =
        db.highlights.filter (fun x => !(x.name == name && x.coverImageKey == cover)) ∧
      (db2.highlights.map (fun x => x.storyId)).Nodup ∧
      (db2.highlights.map (fun x => x.id)).Nodup ∧
      (∀ x ∈ db2.highlights, x.storyId ∉ sids → x ∈ db.highlights) ∧
      (∀ x ∈ db.highlights, x.storyId ∉ sids → x ∈ db2.highlights) := by
  intro sids
  induction sids with
  | nil =>
    intro i db _ _ _ h4 h5 _ _ _
    refine ⟨db, by simp [selectLoop], by simp, ?_, rfl, h4, h5,
      fun x hx _ => hx, fun x hx _ => hx⟩
    rw [enumFrom]
    have hflt : (groupKey db.highlights name cover).filter
        (fun pr : Nat × Int => pr.1 ∉ ([] : List Nat)) =
        groupKey db.highlights name cover := by
      rw [Multiset.filter_eq_self]
      intro pr _
      simp
    rw [hflt]
    simp
  | cons sid rest ih =>
    intro i db h1 h2 h3 h4 h5 h6 h7 h8
    have hsidrest : sid ∉ rest := (List.nodup_cons.mp h1).1
    have h1r : rest.Nodup := (List.nodup_cons.mp h1).2
    obtain ⟨st0, hst0mem, hst0id, hst0uid⟩ := h2 sid (List.mem_cons_self sid rest)
    have hfindst : findStory db sid = some st0 := by
      unfold findStory
      apply find?_eq_of_unique_pred _ _ st0 hst0mem (by simp [hst0id])
      intro x hx hpx
      apply map_nodup_inj db.stories (fun st => st.id) h3 x hx st0 hst0mem
      show x.id = st0.id
      rw [hst0id]
      simpa using hpx
    have harith : i + ((sid :: rest).length : Int) = (i + 1) + (rest.length : Int) := by
      push_cast [List.length_cons]
      ring
    rw [selectLoop, hfindst]
    simp only [hst0uid, bne_self_eq_false, Bool.false_eq_true, if_false]
    by_cases hfl : st0.highlight = true
    · -- the story is already highlighted: its unique row is renumbered to i
      rw [if_pos hfl]
      obtain ⟨r, hrmem, hrsid⟩ := ((h7 st0 hst0mem).mp hfl)
      have hrsid2 : r.storyId = sid := by rw [hrsid, hst0id]
      have hfindr : db.highlights.find? (fun x => x.storyId == sid) = some r := by
        apply find?_eq_of_unique_pred _ _ r hrmem (by simp [hrsid2])
        intro x hx hpx
        apply map_nodup_inj db.highlights (fun x => x.storyId) h4 x hx r hrmem
        show x.storyId = r.storyId
        rw [hrsid2]
        simpa using hpx
      rw [hfindr]
      set U := updateFirstByStoryId db.highlights sid
        (fun x => { x with order := i }) with hU
      have hUmap : U = db.highlights.map
          (fun x => if x.storyId == sid then { x with order := i } else x) :=
        updateFirstByStoryId_eq_map db.highlights sid _ h4
      have hUsid : U.map (fun x => x.storyId) =
          db.highlights.map (fun x => x.storyId) := by
        rw [hUmap, List.map_map]
        apply List.map_congr_left
        intro x _
        by_cases hc : (x.storyId == sid) = true
        · simp only [Function.comp_apply, if_pos hc]
        · simp only [Function.comp_apply, if_neg hc]
      have hUid : U.map (fun x => x.id) = db.highlights.map (fun x => x.id) := by
        rw [hUmap, List.map_map]
        apply List.map_congr_left
        intro x _
        by_cases hc : (x.storyId == sid) = true
        · simp only [Function.comp_apply, if_pos hc]
        · simp only [Function.comp_apply, if_neg hc]
      obtain ⟨db2, e1, e2, e3, e4, e5, e6, e7, e8⟩ :=
        ih (i + 1) { db with highlights := U } h1r
          (fun s hs => h2 s (List.mem_cons_of_mem sid hs)) h3
          (by simpa using hUsid ▸ h4) (by simpa using hUid ▸ h5)
          (by
            intro x hx
            simp only at hx
            rw [hUmap] at hx
            rcases List.mem_map.mp hx with ⟨y, hy, rfl⟩
            have hyid : (if y.storyId == sid then { y with order := i } else y).id
                = y.id := by
              by_cases hc : (y.storyId == sid) = true
              · rw [if_pos hc]
              · rw [if_neg hc]
            simp only [hyid]
            exact h6 y hy)
          (by
            intro st hst
            simp only
            rw [h7 st hst, exists_row_iff, exists_row_iff, hUsid])
          (by
            intro s hs x hx hxs
            simp only at hx
            rw [hUmap] at hx
            rcases List.mem_map.mp hx with ⟨y, hy, rfl⟩
            have hysid : (if y.storyId == sid then { y with order := i } else y).storyId
                = y.storyId := by
              by_cases hc : (y.storyId == sid) = true
              · rw [if_pos hc]
              · rw [if_neg hc]
            rw [hysid] at hxs
            have hgy := h8 s (List.mem_cons_of_mem sid hs) y hy hxs
            by_cases hc : (y.storyId == sid) = true
            · rw [if_pos hc]
              simpa using hgy
            · rw [if_neg hc]
              exact hgy)
      refine ⟨db2, ?_, ?_, ?_, ?_, e5, e6, ?_, ?_⟩
      · rw [e1, harith]
      · rw [e2]
        simp only
        apply List.map_congr_left
        intro t ht
        by_cases htid : t.id = sid
        · have hteq : t = st0 := by
            apply map_nodup_inj db.stories (fun st => st.id) h3 t ht st0 hst0mem
            show t.id = st0.id
            rw [htid, hst0id]
          subst hteq
          rw [if_neg (by rw [htid]; exact hsidrest),
            if_pos (by rw [htid]; exact List.mem_cons_self sid rest),
            set_highlight_eta t hfl]
        · by_cases htr : t.id ∈ rest
          · rw [if_pos htr, if_pos (List.mem_cons_of_mem sid htr)]
          · rw [if_neg htr, if_neg (by simp [htid, htr])]
      · rw [e3]
        simp only
        have hkey : groupKey U name cover =
            (sid, i) ::ₘ (groupKey db.highlights name cover).filter
              (fun pr => pr.1 ≠ sid) := by
          rw [hU]
          exact groupKey_update db.highlights sid i name cover h4 r hrmem hrsid2
            (h8 sid (List.mem_cons_self sid rest) r hrmem hrsid2)
        rw [hkey]
        rw [show Multiset.filter (fun pr : Nat × Int => pr.1 ∉ rest)
              ((sid, i) ::ₘ (groupKey db.highlights name cover).filter
                (fun pr => pr.1 ≠ sid)) =
            (sid, i) ::ₘ Multiset.filter (fun pr : Nat × Int => pr.1 ∉ rest)
              ((groupKey db.highlights name cover).filter (fun pr => pr.1 ≠ sid))
          from Multiset.filter_cons_of_pos _ hsidrest]
        rw [Multiset.filter_filter]
        rw [show Multiset.filter
              (fun pr : Nat × Int => pr.1 ∉ rest ∧ pr.1 ≠ sid)
              (groupKey db.highlights name cover) =
            Multiset.filter (fun pr : Nat × Int => pr.1 ∉ sid :: rest)
              (groupKey db.highlights name cover) from by
          apply Multiset.filter_congr
          intro pr _
          simp [List.mem_cons, not_or, and_comm]]
        rw [enumFrom, ← Multiset.cons_coe]
        rw [← Multiset.singleton_add (sid, i), ← Multiset.singleton_add (sid, i),
          add_left_comm, add_assoc]
      · rw [e4]
        simp only
        rw [hUmap]
        have hpres : ∀ x : HighlightRec,
            (!((if x.storyId == sid then { x with order := i } else x).name == name &&
               (if x.storyId == sid then { x with order := i } else x).coverImageKey
                 == cover)) =
            (!(x.name == name && x.coverImageKey == cover)) := by
          intro x
          by_cases hc : (x.storyId == sid) = true
          · rw [if_pos hc]
          · rw [if_neg hc]
        rw [filter_map_comm db.highlights
          (fun x => if x.storyId == sid then { x with order := i } else x)
          (fun x => !(x.name == name && x.coverImageKey == cover))
          hpres]
        have hid : ∀ x ∈ List.filter
            (fun x : HighlightRec => !(x.name == name && x.coverImageKey == cover))
            db.highlights,
            (if x.storyId == sid then { x with order := i } else x) = x := by
          intro x hx
          have hxng := (List.mem_filter.mp hx).2
          have hxnsid : (x.storyId == sid) = false := by
            by_cases hxe : (x.storyId == sid) = true
            · exfalso
              have hxsid : x.storyId = sid := by simpa using hxe
              have hgx := h8 sid (List.mem_cons_self sid rest) x
                (List.mem_of_mem_filter hx) hxsid
              rw [hgx] at hxng
              simp at hxng
            · simpa using hxe
          rw [if_neg (by simp [hxnsid])]
        rw [List.map_congr_left hid, List.map_id']
      · intro x hx hxs
        have hx2 := e7 x hx (by
          intro hmem
          exact hxs (List.mem_cons_of_mem sid hmem))
        simp only at hx2
        rw [hUmap] at hx2
        rcases List.mem_map.mp hx2 with ⟨y, hy, rfl⟩
        have hysid : (if y.storyId == sid then { y with order := i } else y).storyId
            = y.storyId := by
          by_cases hc : (y.storyId == sid) = true
          · rw [if_pos hc]
          · rw [if_neg hc]
        have hyneq : (y.storyId == sid) = false := by
          by_cases hce : (y.storyId == sid) = true
          · exfalso
            apply hxs
            rw [hysid]
            rw [show y.storyId = sid from by simpa using hce]
            exact List.mem_cons_self sid rest
          · simpa using hce
        rw [if_neg (by simp [hyneq])]
        exact hy
      · intro x hx hxs
        have hxnsid : (x.storyId == sid) = false := by
          by_cases hce : (x.storyId == sid) = true
          · exfalso
            apply hxs
            rw [show x.storyId = sid from by simpa using hce]
            exact List.mem_cons_self sid rest
          · simpa using hce
        apply e8
        simp only
        rw [hUmap]
        have himg : (if x.storyId == sid then { x with order := i } else x) = x := by
          rw [if_neg (by simp [hxnsid])]
        rw [← himg]
        exact List.mem_map_of_mem _ hx
        intro hmem
        exact hxs (List.mem_cons_of_mem sid hmem)
    · -- the story is not yet highlighted: a fresh row is appended at order i
      rw [if_neg hfl]
      have hnorow : ∀ x ∈ db.highlights, x.storyId ≠ sid := by
        intro x hx hxe
        apply hfl
        rw [h7 st0 hst0mem]
        exact ⟨x, hx, by rw [hxe, hst0id]⟩
      set newH : HighlightRec :=
        { id := db.nextId, storyId := sid, name := name,
          coverImageKey := cover, order := i, archive := false } with hnewH
      obtain ⟨db2, e1, e2, e3, e4, e5, e6, e7, e8⟩ :=
        ih (i + 1)
          { stories := db.stories.map (fun st =>
              if st.id == sid then { st with highlight := true } else st),
            highlights := db.highlights ++ [newH],
            nextId := db.nextId + 1 }
          h1r
          (by
            intro s hs
            obtain ⟨st, hstm, hstid, hstuid⟩ := h2 s (List.mem_cons_of_mem sid hs)
            refine ⟨if st.id == sid then { st with highlight := true } else st,
              List.mem_map_of_mem _ hstm, ?_, ?_⟩
            · by_cases hc : (st.id == sid) = true
              · rw [if_pos hc]; exact hstid
              · rw [if_neg hc]; exact hstid
            · by_cases hc : (st.id == sid) = true
              · rw [if_pos hc]; exact hstuid
              · rw [if_neg hc]; exact hstuid)
          (by
            simp only
            rw [List.map_map]
            have : ((fun st : StoryRec => st.id) ∘ fun st =>
                if st.id == sid then { st with highlight := true } else st) =
                (fun st : StoryRec => st.id) := by
              funext st
              by_cases hc : (st.id == sid) = true
              · simp only [Function.comp_apply, if_pos hc]
              · simp only [Function.comp_apply, if_neg hc]
            rw [this]
            exact h3)
          (by
            simp only
            rw [List.map_append]
            simp only [List.map_cons, List.map_nil, hnewH]
            rw [List.nodup_append]
            refine ⟨h4, by simp, ?_⟩
            intro a ha
            simp only [List.mem_singleton]
            rcases List.mem_map.mp ha with ⟨y, hy, rfl⟩
            intro hce
            exact hnorow y hy hce)
          (by
            simp only
            rw [List.map_append]
            simp only [List.map_cons, List.map_nil, hnewH]
            rw [List.nodup_append]
            refine ⟨h5, by simp, ?_⟩
            intro a ha
            simp only [List.mem_singleton]
            rcases List.mem_map.mp ha with ⟨y, hy, rfl⟩
            intro hce
            have := h6 y hy
            omega)
          (by
            intro x hx
            simp only at hx ⊢
            rcases List.mem_append.mp hx with hxa | hxb
            · have := h6 x hxa
              omega
            · have hx2 : x.id = db.nextId := by
                rw [List.mem_singleton.mp hxb, hnewH]
              omega)
          (by
            intro st hst
            simp only at hst ⊢
            rcases List.mem_map.mp hst with ⟨t, htm, rfl⟩
            by_cases hc : (t.id == sid) = true
            · rw [if_pos hc]
              simp only
              constructor
              · intro _
                refine ⟨newH, List.mem_append.mpr (Or.inr (List.mem_singleton_self _)), ?_⟩
                have hts : t.id = sid := by simpa using hc
                rw [hnewH]
                exact hts.symm
              · intro _
                trivial
            · rw [if_neg hc]
              rw [h7 t htm]
              constructor
              · rintro ⟨x, hxm, hxe⟩
                exact ⟨x, List.mem_append.mpr (Or.inl hxm), hxe⟩
              · rintro ⟨x, hxm, hxe⟩
                rcases List.mem_append.mp hxm with hxa | hxb
                · exact ⟨x, hxa, hxe⟩
                · exfalso
                  rw [List.mem_singleton.mp hxb, hnewH] at hxe
                  simp only at hxe
                  rw [← hxe] at hc
                  simp at hc)
          (by
            intro s hs x hx hxs
            simp only at hx
            rcases List.mem_append.mp hx with hxa | hxb
            · exact h8 s (List.mem_cons_of_mem sid hs) x hxa hxs
            · rw [List.mem_singleton.mp hxb, hnewH]
              simp)
      refine ⟨db2, ?_, ?_, ?_, ?_, e5, e6, ?_, ?_⟩
      · rw [e1, harith]
      · rw [e2]
        simp only
        rw [List.map_map]
        apply List.map_congr_left
        intro t ht
        by_cases htid : t.id = sid
        · have hc : (t.id == sid) = true := by simp [htid]
          simp only [Function.comp_apply, if_pos hc]
          rw [if_neg (show ({ t with highlight := true } : StoryRec).id ∉ rest from
            by simpa [htid] using hsidrest)]
          rw [if_pos (htid ▸ List.mem_cons_self sid rest)]
        · have hc : (t.id == sid) = false := by simp [htid]
          simp only [Function.comp_apply, if_neg (by simp [hc] : ¬ (t.id == sid) = true)]
          by_cases htr : t.id ∈ rest
          · rw [if_pos htr, if_pos (List.mem_cons_of_mem sid htr)]
          · rw [if_neg htr, if_neg (by simp [htid, htr])]
      · rw [e3]
        simp only
        rw [groupKey_append]
        have hkeynew : groupKey [newH] name cover = (sid, i) ::ₘ 0 := by
          rw [groupKey_cons, if_pos (by rw [hnewH]; simp)]
          rw [hnewH]
          rfl
        rw [hkeynew]
        rw [Multiset.filter_add]
        rw [show Multiset.filter (fun pr : Nat × Int => pr.1 ∉ rest)
              ((sid, i) ::ₘ 0) = (sid, i) ::ₘ Multiset.filter
                (fun pr : Nat × Int => pr.1 ∉ rest) 0
          from Multiset.filter_cons_of_pos _ hsidrest]
        rw [show Multiset.filter (fun pr : Nat × Int => pr.1 ∉ rest)
            (0 : Multiset (Nat × Int)) = 0 from rfl]
        rw [show Multiset.filter (fun pr : Nat × Int => pr.1 ∉ rest)
              (groupKey db.highlights name cover) =
            Multiset.filter (fun pr : Nat × Int => pr.1 ∉ sid :: rest)
              (groupKey db.highlights name cover) from by
          apply Multiset.filter_congr
          intro pr hpr
          have hprs := groupKey_fst_mem db.highlights name cover pr hpr
          rcases List.mem_map.mp hprs with ⟨y, hy, hye⟩
          have : pr.1 ≠ sid := by
            rw [← hye]
            exact hnorow y hy
          simp [List.mem_cons, not_or, this]]
        rw [enumFrom, ← Multiset.cons_coe]
        rw [← Multiset.singleton_add (sid, i), ← Multiset.singleton_add (sid, i)]
        rw [show Multiset.filter (fun pr : Nat × Int => pr.1 ∉ sid :: rest)
              (groupKey db.highlights name cover) + ({(sid, i)} + 0) =
            {(sid, i)} + Multiset.filter (fun pr : Nat × Int => pr.1 ∉ sid :: rest)
              (groupKey db.highlights name cover) from by
          rw [add_zero]
          exact add_comm _ _]
        rw [← add_assoc]
        rw [show (enumFrom (i + 1) rest : Multiset (Nat × Int)) + {(sid, i)} =
            {(sid, i)} + (enumFrom (i + 1) rest : Multiset (Nat × Int)) from
          add_comm _ _]
      · rw [e4]
        simp only
        rw [List.filter_append]
        rw [show List.filter
              (fun x => !(x.name == name && x.coverImageKey == cover)) [newH] =
            [] from by
          rw [List.filter_cons, if_neg (by rw [hnewH]; simp)]
          rfl]
        rw [List.append_nil]
      · intro x hx hxs
        have hx2 := e7 x hx (fun hmem => hxs (List.mem_cons_of_mem sid hmem))
        simp only at hx2
        rcases List.mem_append.mp hx2 with hxa | hxb
        · exact hxa
        · exfalso
          apply hxs
          rw [List.mem_singleton.mp hxb, hnewH]
          exact List.mem_cons_self sid rest
      · intro x hx hxs
        apply e8
        · simp only
          exact List.mem_append.mpr (Or.inl hx)
        · intro hmem
          exact hxs (List.mem_cons_of_mem sid hmem)

/-- A member of a group key comes from a row of the group. -/
theorem groupKey_mem_row (hs : List HighlightRec) (name cover : String)
    (pr : Nat × Int) (hpr : pr ∈ groupKey hs name cover) :
    ∃ x ∈ hs, (x.name == name && x.coverImageKey == cover) = true ∧
      pr = (x.storyId, x.order) := by
  unfold groupKey at hpr
  rw [Multiset.mem_coe] at hpr
  rcases List.mem_map.mp hpr with ⟨x, hx, rfl⟩
  exact ⟨x, List.mem_of_mem_filter hx, (List.mem_filter.mp hx).2, rfl⟩

/-- Specification of the deselected loop of `edit_highlight_folder`: with
unique ids, and behind every deselected id an owned story that is either kept
or deletable together with a highlight row referencing it, the loop commits
and its only effect on the highlights table is to drop every row whose story
id is deselected; the surviving rows are not renumbered. -/
theorem deselectLoop_spec (now : Int) (deleteOk : String → Bool) (userId : Int) :
    ∀ (dsids : List Nat) (db : HLDB),
    dsids.Nodup →
    (∀ d ∈ dsids, ∃ st ∈ db.stories, st.id = d ∧ st.userId = userId ∧
      (storyStillKept now st = true ∨
        (deleteOk st.s3Key && deleteOk st.thumbnailKey) = true)) →
    (db.stories.map (fun st => st.id)).Nodup →
    (db.highlights.map (fun x => x.storyId)).Nodup →
    (db.highlights.map (fun x => x.id)).Nodup →
    (∀ d ∈ dsids, ∃ x ∈ db.highlights, x.storyId = d) →
    ∃ db3, deselectLoop now deleteOk userId dsids db = .ok db3 ∧
      db3.highlights =
        db.highlights.filter (fun x => decide (x.storyId ∉ dsids)) := by
  intro dsids
  induction dsids with
  | nil =>
    intro db _ _ _ _ _ _
    refine ⟨db, by simp [deselectLoop], ?_⟩
    have hid : List.filter
        (fun x : HighlightRec => decide (x.storyId ∉ ([] : List Nat)))
        db.highlights = db.highlights := by
      apply List.filter_eq_self.mpr
      intro x _
      simp
    rw [hid]
  | cons sid rest ih =>
    intro db h1 h2 h3 h4 h5 h6
    have hsidrest : sid ∉ rest := (List.nodup_cons.mp h1).1
    have h1r : rest.Nodup := (List.nodup_cons.mp h1).2
    obtain ⟨st0, hst0mem, hst0id, hst0uid, hst0disp⟩ :=
      h2 sid (List.mem_cons_self sid rest)
    obtain ⟨r, hrmem, hrsid⟩ := h6 sid (List.mem_cons_self sid rest)
    have hfindst : findStory db sid = some st0 := by
      unfold findStory
      apply find?_eq_of_unique_pred _ _ st0 hst0mem (by simp [hst0id])
      intro x hx hpx
      apply map_nodup_inj db.stories (fun st => st.id) h3 x hx st0 hst0mem
      show x.id = st0.id
      rw [hst0id]
      simpa using hpx
    have hfindr : db.highlights.find? (fun h =>
        h.storyId == sid && (findStory db h.storyId).isSome) = some r := by
      apply find?_eq_of_unique_pred _ _ r hrmem
      · show (r.storyId == sid && (findStory db r.storyId).isSome) = true
        rw [hrsid]
        simp [hfindst]
      · intro x hx hpx
        have hpx2 : (x.storyId == sid) = true := (Bool.and_eq_true_iff.mp hpx).1
        apply map_nodup_inj db.highlights (fun x => x.storyId) h4 x hx r hrmem
        show x.storyId = r.storyId
        rw [hrsid]
        simpa using hpx2
    have hfindst2 : findStory db r.storyId = some st0 := by
      rw [hrsid]
      exact hfindst
    rw [deselectLoop, hfindr]
    simp only [hfindst2, hst0uid, bne_self_eq_false, Bool.false_eq_true, if_false]
    have hEr : eraseFirstById db.highlights r.id =
        db.highlights.filter (fun x => !(x.storyId == sid)) := by
      rw [eraseFirstById_eq_filter db.highlights r.id h5]
      apply List.filter_congr
      intro x hx
      by_cases hxr : x = r
      · subst hxr
        simp [hrsid]
      · have hxid : x.id ≠ r.id := fun he =>
          hxr (map_nodup_inj db.highlights (fun h => h.id) h5 x hx r hrmem he)
        have hxsid : x.storyId ≠ sid := by
          intro he
          apply hxr
          apply map_nodup_inj db.highlights (fun h => h.storyId) h4 x hx r hrmem
          rw [he, hrsid]
        simp [hxid, hxsid]
    rw [hEr]
    set E := db.highlights.filter (fun x => !(x.storyId == sid)) with hE
    have hE4 : (E.map (fun x => x.storyId)).Nodup := by
      rw [hE]
      exact List.Pairwise.sublist
        (List.Sublist.map (fun x => x.storyId) (List.filter_sublist db.highlights)) h4
    have hE5 : (E.map (fun x => x.id)).Nodup := by
      rw [hE]
      exact List.Pairwise.sublist
        (List.Sublist.map (fun x => x.id) (List.filter_sublist db.highlights)) h5
    have hEmem : ∀ d ∈ rest, ∃ x ∈ E, x.storyId = d := by
      intro d hd
      obtain ⟨x, hxm, hxsid⟩ := h6 d (List.mem_cons_of_mem sid hd)
      refine ⟨x, ?_, hxsid⟩
      rw [hE]
      apply List.mem_filter.mpr
      refine ⟨hxm, ?_⟩
      have hdnesid : d ≠ sid := by
        intro he
        apply hsidrest
        rw [← he]
        exact hd
      simp [hxsid, hdnesid]
    by_cases hkept : storyStillKept now st0 = true
    · rw [if_pos hkept]
      obtain ⟨db3, e1, e2⟩ := ih
        (updateStory { db with highlights := E } st0.id
          (fun st => { st with highlight := false }))
        h1r
        (by
          intro d hd
          obtain ⟨st, hstm, hstid, hstuid, hstdisp⟩ :=
            h2 d (List.mem_cons_of_mem sid hd)
          refine ⟨if st.id == st0.id then { st with highlight := false } else st,
            List.mem_map_of_mem _ hstm, ?_, ?_, ?_⟩
          · by_cases hc : (st.id == st0.id) = true
            · rw [if_pos hc]; exact hstid
            · rw [if_neg hc]; exact hstid
          · by_cases hc : (st.id == st0.id) = true
            · rw [if_pos hc]; exact hstuid
            · rw [if_neg hc]; exact hstuid
          · by_cases hc : (st.id == st0.id) = true
            · rw [if_pos hc]; exact hstdisp
            · rw [if_neg hc]; exact hstdisp)
        (by
          show ((db.stories.map (fun st =>
              if st.id == st0.id then { st with highlight := false } else st)).map
            (fun st => st.id)).Nodup
          rw [List.map_map]
          have hcomp : ((fun st : StoryRec => st.id) ∘ fun st =>
              if st.id == st0.id then { st with highlight := false } else st) =
              (fun st : StoryRec => st.id) := by
            funext st
            by_cases hc : (st.id == st0.id) = true
            · simp only [Function.comp_apply, if_pos hc]
            · simp only [Function.comp_apply, if_neg hc]
          rw [hcomp]
          exact h3)
        hE4 hE5 hEmem
      refine ⟨db3, e1, ?_⟩
      rw [e2]
      show List.filter (fun x => decide (x.storyId ∉ rest)) E =
        List.filter (fun x => decide (x.storyId ∉ sid :: rest)) db.highlights
      rw [hE, List.filter_filter]
      apply List.filter_congr
      intro x hx
      by_cases hxsid : x.storyId = sid
      · simp [List.mem_cons, hxsid]
      · by_cases hxrest : x.storyId ∈ rest
        · simp [List.mem_cons, hxsid, hxrest]
        · simp [List.mem_cons, hxsid, hxrest]
    · rw [if_neg hkept]
      have hdel : (deleteOk st0.s3Key && deleteOk st0.thumbnailKey) = true := by
        rcases hst0disp with h | h
        · exact absurd h hkept
        · exact h
      rw [if_pos hdel]
      obtain ⟨db3, e1, e2⟩ := ih
        (deleteStoryCascade { db with highlights := E } st0.id)
        h1r
        (by
          intro d hd
          obtain ⟨st, hstm, hstid, hstuid, hstdisp⟩ :=
            h2 d (List.mem_cons_of_mem sid hd)
          have hdnesid : d ≠ sid := by
            intro he
            apply hsidrest
            rw [← he]
            exact hd
          refine ⟨st, ?_, hstid, hstuid, hstdisp⟩
          show st ∈ List.filter (fun t => !(t.id == st0.id)) db.stories
          apply List.mem_filter.mpr
          refine ⟨hstm, ?_⟩
          simp [hstid, hst0id, hdnesid])
        (by
          show ((db.stories.filter (fun t => !(t.id == st0.id))).map
            (fun st => st.id)).Nodup
          exact List.Pairwise.sublist
            (List.Sublist.map (fun st => st.id) (List.filter_sublist db.stories)) h3)
        (by
          show ((E.filter (fun h => !(h.storyId == st0.id))).map
            (fun x => x.storyId)).Nodup
          exact List.Pairwise.sublist
            (List.Sublist.map (fun x => x.storyId) (List.filter_sublist E)) hE4)
        (by
          show ((E.filter (fun h => !(h.storyId == st0.id))).map
            (fun x => x.id)).Nodup
          exact List.Pairwise.sublist
            (List.Sublist.map (fun x => x.id) (List.filter_sublist E)) hE5)
        (by
          intro d hd
          obtain ⟨x, hxm, hxsid⟩ := hEmem d hd
          refine ⟨x, ?_, hxsid⟩
          show x ∈ E.filter (fun h => !(h.storyId == st0.id))
          apply List.mem_filter.mpr
          refine ⟨hxm, ?_⟩
          have hdnesid : d ≠ sid := by
            intro he
            apply hsidrest
            rw [← he]
            exact hd
          simp [hxsid, hst0id, hdnesid])
      refine ⟨db3, e1, ?_⟩
      rw [e2]
      show List.filter (fun x => decide (x.storyId ∉ rest))
          (E.filter (fun h => !(h.storyId == st0.id))) =
        List.filter (fun x => decide (x.storyId ∉ sid :: rest)) db.highlights
      rw [List.filter_filter, hE, List.filter_filter]
      apply List.filter_congr
      intro x hx
      by_cases hxsid : x.storyId = sid
      · simp [List.mem_cons, hxsid, hst0id]
      · by_cases hxrest : x.storyId ∈ rest
        · simp [List.mem_cons, hxsid, hxrest, hst0id]
        · simp [List.mem_cons, hxsid, hxrest, hst0id]

/-- C2 counterexample: on the trip group holding stories 1 and 2 at orders 1
and 2, an `edit_highlight_folder` request that deselects story 1 and selects
nothing deletes the order-1 row without renumbering, leaving the group with
the single order 2 - not the dense set 1..1 the claim promises for every
mutation of the routes. -/
theorem C2_counterexample :
    editResultOrders
      (editHighlightFolder 500 allDeletesOk 7 "trip" "cov" "trip" "cov" [] [1] exHLDB)
      "trip" "cov" = some {2} ∧
    ¬ denseOrders ({2} : Multiset Int) 1 := by
  constructor
  · rfl
  · decide

/-- C2 (corrected): the removal route does renumber and preserves density, but
the deselect path of `edit_highlight_folder` deletes rows without renumbering,
so the claim holds for an edit only when the selected list covers every story
remaining in the group.  Part one: under unique ids and a found highlight,
`remove_highlight_from_highlights` takes a dense group of size `n` to a dense
group of size `n - 1`.  Part two: when the selected and deselected ids are
disjoint, backed by owned stories, every listed row sits in the renamed group,
and the selected list together with the deselected one covers the whole group,
a committed `edit_highlight_folder` leaves the group with orders exactly
1..(number of selected stories). -/
theorem C2_amended :
    (∀ (now : Int) (deleteOk : String → Bool) (userId : Int) (hid : Nat)
        (db0 : HLDB) (h : HighlightRec) (n : Nat),
      db0.highlights.find? (fun x =>
          x.id == hid &&
            ((findStory db0 x.storyId).map
              (fun st => st.userId == userId)).getD false) = some h →
      (db0.highlights.map (fun x => x.id)).Nodup →
      (db0.highlights.map (fun x => x.storyId)).Nodup →
      denseOrders (groupOrders db0.highlights h.name h.coverImageKey) n →
      ∀ db2, removeHighlightFromHighlights now deleteOk userId hid db0 = .ok db2 →
        denseOrders (groupOrders db2.highlights h.name h.coverImageKey) (n - 1)) ∧
    (∀ (now : Int) (deleteOk : String → Bool) (userId : Int)
        (name cover oldName oldCover : String)
        (sids dsids : List Nat) (db0 : HLDB),
      sids.Nodup →
      dsids.Nodup →
      (∀ s ∈ sids, ∃ st ∈ db0.stories, st.id = s ∧ st.userId = userId) →
      (db0.stories.map (fun st => st.id)).Nodup →
      ((renameGroup oldName oldCover name cover db0.highlights).map
        (fun x => x.storyId)).Nodup →
      ((renameGroup oldName oldCover name cover db0.highlights).map
        (fun x => x.id)).Nodup →
      (∀ x ∈ renameGroup oldName oldCover name cover db0.highlights,
        x.id < db0.nextId) →
      (∀ st ∈ db0.stories, (st.highlight = true ↔
        ∃ x ∈ renameGroup oldName oldCover name cover db0.highlights,
          x.storyId = st.id)) →
      (∀ s ∈ sids, ∀ x ∈ renameGroup oldName oldCover name cover db0.highlights,
        x.storyId = s → (x.name == name && x.coverImageKey == cover) = true) →
      (∀ d ∈ dsids, ∃ st ∈ db0.stories, st.id = d ∧ st.userId = userId ∧
        (storyStillKept now st = true ∨
          (deleteOk st.s3Key && deleteOk st.thumbnailKey) = true)) →
      (∀ d ∈ dsids, ∃ x ∈ renameGroup oldName oldCover name cover db0.highlights,
        x.storyId = d) →
      (∀ d ∈ dsids, d ∉ sids) →
      (∀ x ∈ renameGroup oldName oldCover name cover db0.highlights,
        (x.name == name && x.coverImageKey == cover) = true →
          x.storyId ∈ sids ∨ x.storyId ∈ dsids) →
      ∀ db3, editHighlightFolder now deleteOk userId name cover oldName oldCover
          sids dsids db0 = .ok db3 →
        denseOrders (groupOrders db3.highlights name cover) sids.length) := by
  constructor
  · intro now deleteOk userId hid db0 h n hfind hids hsids hdense db2 hrun
    exact removeHighlight_dense now deleteOk userId hid db0 h n hfind hids hsids
      hdense db2 hrun
  · intro now deleteOk userId name cover oldName oldCover sids dsids db0
      hs1 hd1 hso hsn hr4 hr5 hr6 hr7 hr8 hd2 hd6 hdisj hcov db3 heq
    rw [editHighlightFolder] at heq
    by_cases hnc : (name == "" || cover == "") = true
    · rw [if_pos hnc] at heq
      simp at heq
    · rw [if_neg hnc] at heq
      obtain ⟨db2, e1, e2, e3, e4, e5, e6, e7, e8⟩ :=
        selectLoop_spec userId name cover sids 1
          { db0 with highlights := renameGroup oldName oldCover name cover db0.highlights }
          hs1 hso hsn hr4 hr5 hr6 hr7 hr8
      simp only at e3
      simp only [e1] at heq
      obtain ⟨db3x, f1, f2⟩ :=
        deselectLoop_spec now deleteOk userId dsids db2 hd1
          (by
            intro d hd
            obtain ⟨st, hstm, hstid, hstuid, hstdisp⟩ := hd2 d hd
            rw [e2]
            refine ⟨if st.id ∈ sids then { st with highlight := true } else st,
              List.mem_map_of_mem _ hstm, ?_, ?_, ?_⟩
            · by_cases hc : st.id ∈ sids
              · rw [if_pos hc]; exact hstid
              · rw [if_neg hc]; exact hstid
            · by_cases hc : st.id ∈ sids
              · rw [if_pos hc]; exact hstuid
              · rw [if_neg hc]; exact hstuid
            · by_cases hc : st.id ∈ sids
              · rw [if_pos hc]; exact hstdisp
              · rw [if_neg hc]; exact hstdisp)
          (by
            rw [e2, List.map_map]
            have hcomp : ((fun st : StoryRec => st.id) ∘ fun st =>
                if st.id ∈ sids then { st with highlight := true } else st) =
                (fun st : StoryRec => st.id) := by
              funext st
              by_cases hc : st.id ∈ sids
              · simp only [Function.comp_apply, if_pos hc]
              · simp only [Function.comp_apply, if_neg hc]
            rw [hcomp]
            exact hsn)
          e5 e6
          (by
            intro d hd
            obtain ⟨x, hxm, hxsid⟩ := hd6 d hd
            refine ⟨x, ?_, hxsid⟩
            apply e8 x hxm
            rw [hxsid]
            exact hdisj d hd)
      simp only [f1] at heq
      have hdb : db3x = db3 := by simpa using heq
      subst hdb
      rw [groupOrders_eq_key, f2]
      have hgk := groupKey_filter_sid db2.highlights name cover (fun s => s ∉ dsids)
      rw [hgk, e3, Multiset.filter_add]
      have henum : Multiset.filter (fun pr : Nat × Int => pr.1 ∉ dsids)
          ((enumFrom 1 sids : List (Nat × Int)) : Multiset (Nat × Int)) =
          ((enumFrom 1 sids : List (Nat × Int)) : Multiset (Nat × Int)) := by
        rw [Multiset.filter_eq_self]
        intro pr hpr
        have hps := enumFrom_fst_mem sids 1 pr (by simpa using hpr)
        intro hmem
        exact hdisj pr.1 hmem hps
      have hrest : Multiset.filter (fun pr : Nat × Int => pr.1 ∉ dsids)
          (Multiset.filter (fun pr : Nat × Int => pr.1 ∉ sids)
            (groupKey (renameGroup oldName oldCover name cover db0.highlights)
              name cover)) = 0 := by
        rw [Multiset.filter_filter, Multiset.filter_eq_nil]
        intro pr hpr
        obtain ⟨x, hxm, hxg, hxpr⟩ := groupKey_mem_row _ name cover pr hpr
        intro hq
        rcases hcov x hxm hxg with hin | hin
        · exact hq.2 (by rw [hxpr]; exact hin)
        · exact hq.1 (by rw [hxpr]; exact hin)
      rw [henum, hrest, add_zero]
      unfold denseOrders
      rw [Multiset.map_coe]
      exact enumFrom_one_dense sids

/-- Witness for the corrected C2 at concrete inputs: removing highlight 10
from the trip group of stories 1 and 2 renumbers the survivor and leaves a
dense group of size 1, and an edit that selects both stories and deselects
none leaves the dense group of size 2. -/
theorem C2_witness :
    (removeHighlightFromHighlights 500 allDeletesOk 7 10 exHLDB =
        Except.ok
          { stories := [{ exHLStoryA with highlight := false }, exHLStoryB],
            highlights := [{ id := 11, storyId := 2, name := "trip",
                             coverImageKey := "cov", order := 1, archive := false }],
            nextId := 100 } ∧
      denseOrders (groupOrders [{ id := 11, storyId := 2, name := "trip",
                                  coverImageKey := "cov", order := 1,
                                  archive := false }] "trip" "cov") 1) ∧
    (editHighlightFolder 500 allDeletesOk 7 "trip" "cov" "trip" "cov" [1, 2] []
        exHLDB = Except.ok exHLDB ∧
      denseOrders (groupOrders exHLDB.highlights "trip" "cov") 2) := by
  refine ⟨⟨rfl, ?_⟩, rfl, ?_⟩
  · exact C2_amended.1 500 allDeletesOk 7 10 exHLDB
      { id := 10, storyId := 1, name := "trip", coverImageKey := "cov",
        order := 1, archive := false } 2
      rfl (by decide) (by decide) (by decide) _ rfl
  · exact C2_amended.2 500 allDeletesOk 7 "trip" "cov" "trip" "cov" [1, 2] [] exHLDB
      (by decide) (by decide) (by decide) (by decide) (by decide) (by decide)
      (by decide) (by decide) (by decide) (by decide) (by decide) (by decide)
      (by decide) exHLDB rfl
